import Mathlib

/-!
Shallow embedding of the ICPNomadWallet canister (Motoko source,
`src/unnamed/part_006`): data model, storage maps, authentication with
lockout, stablecoin deposit/withdraw/transfer, the append-only transaction
ledger with its by-account / by-time / by-type indices, and paginated
transaction-history queries.

Modelling conventions:
* `Principal` is modelled as `String`; SHA-256 hashing (library code, not
  part of this repository) is abstracted into a `CryptoModel` parameter:
  `sha256hex` stands for SHA-256 followed by hex encoding, and
  `principalFromHash` stands for SHA-256 followed by truncation to 29 bytes
  and `Principal.fromBlob`.  The salt-concatenation done by the repository
  code is embedded literally.
* Motoko `HashMap` is modelled as an association list with `mget`/`mput`
  (lookup / replace-or-insert); `Time.now()` is threaded as an explicit
  `now : Int` argument (nanoseconds).
* Motoko `Nat` subtraction and division trap on underflow / division by
  zero; at the one site where the repository code can actually trap
  (`getTransactionHistory`'s `totalPages` computation) this is embedded by
  guarded operations returning `Option`, with `none` = trap.  All other
  arithmetic sites are guarded by explicit comparisons in the same function,
  where Lean's truncated `Nat` subtraction agrees with Motoko.
* Motoko query methods cannot persist state changes, so queries are embedded
  as functions returning only a result.
-/

namespace ICPNomad

/-- Principals are opaque identifiers; modelled as strings. -/
abbrev Principal := String

/-- Association-list lookup, modelling `HashMap.get`. -/
def mget {α β : Type} [DecidableEq α] : List (α × β) → α → Option β
  | [], _ => none
  | (a, b) :: t, k => if a = k then some b else mget t k

/-- Association-list replace-or-insert, modelling `HashMap.put`. -/
def mput {α β : Type} [DecidableEq α] : List (α × β) → α → β → List (α × β)
  | [], k, v => [(k, v)]
  | (a, b) :: t, k, v => if a = k then (k, v) :: t else (a, b) :: mput t k v

/-- Transaction types supported by the wallet. -/
inductive TransactionType where
  | deposit
  | withdrawal
  | transfer
  | stablecoinDeposit
  | stablecoinWithdrawal
  | stablecoinTransfer
deriving DecidableEq, Repr

/-- Transaction status enumeration. -/
inductive TransactionStatus where
  | pending
  | completed
  | failed
deriving DecidableEq, Repr

/-- Individual transaction record. -/
structure Transaction where
  id : Nat
  txType : TransactionType
  amount : Nat
  timestamp : Int
  status : TransactionStatus
  fromAddress : Option Principal
  toAddress : Option Principal
  tokenType : String
  signature : Option String
  blockIndex : Option Nat
deriving DecidableEq, Repr

/-- User model: authentication and security data. -/
structure User where
  address : Principal
  pinHash : String
  createdAt : Int
  lastActivity : Int
  failedAttempts : Nat
  lastFailedAttempt : Option Int
  isLocked : Bool
  lockoutUntil : Option Int
  transactionCount : Nat
deriving DecidableEq, Repr

/-- Wallet model: balance and financial data. -/
structure Wallet where
  address : Principal
  icpBalance : Nat
  stablecoinBalance : Nat
  reservedIcp : Nat
  reservedStablecoin : Nat
  lastBalanceUpdate : Int
  totalDeposited : Nat
  totalWithdrawn : Nat
deriving DecidableEq, Repr

/-- Error types of the canister. -/
inductive WalletError where
  | invalidCredentials
  | walletNotFound
  | userNotFound
  | insufficientFunds
  | addressAlreadyExists
  | invalidAmount
  | transactionFailed
  | stablecoinError (msg : String)
  | systemError (msg : String)
  | invalidSignature
  | accountLocked
  | rateLimitExceeded
  | transactionNotFound
  | storageError (msg : String)
deriving DecidableEq, Repr

/-- Motoko `Result<T, WalletError>`, as returned by the canister methods. -/
inductive Res (α : Type) where
  | ok (val : α)
  | err (e : WalletError)
deriving DecidableEq, Repr

/-- Result projection, used to state facts about successful results. -/
def Res.rmap {α β : Type} (f : α → β) : Res α → Res β
  | Res.ok val => Res.ok (f val)
  | Res.err e => Res.err e

/-- Pagination parameters. -/
structure PaginationParams where
  page : Nat
  pageSize : Nat
  sortBy : String
  sortOrder : String
deriving DecidableEq, Repr

/-- Paginated result wrapper. -/
structure PaginatedResult (α : Type) where
  data : List α
  totalCount : Nat
  page : Nat
  pageSize : Nat
  totalPages : Nat
deriving DecidableEq, Repr

/-- Security configuration: maximum failed PIN attempts before lockout. -/
def maxFailedAttempts : Nat := 5

/-- Security configuration: lockout duration, 1 hour in nanoseconds. -/
def lockoutDuration : Int := 3600000000000

/-- Security configuration: additional salt for PIN hashing. -/
def securitySalt : String := "icpnomad_security_salt_2024"

/-- Storage optimization setting: per-user transaction index cap. -/
def maxTransactionsPerUser : Nat := 10000

/-- Abstract model of the cryptographic primitives used by the canister
(SHA-256 from the `mo:sha256` library, not repository code). -/
structure CryptoModel where
  sha256hex : String → String
  principalFromHash : String → Principal

/-- Generates a secure hash for PIN storage: combines phone number, PIN and
the security salt, then hashes. -/
def hashPin (c : CryptoModel) (phoneNumber pin : String) : String :=
  c.sha256hex (phoneNumber ++ ":" ++ pin ++ ":" ++ securitySalt)

/-- Verifies a PIN against a stored hash. -/
def verifyPin (c : CryptoModel) (phoneNumber pin storedHash : String) : Bool :=
  hashPin c phoneNumber pin = storedHash

/-- Derives a deterministic `Principal` from phone number and PIN. -/
def deriveWalletAddress (c : CryptoModel) (phoneNumber pin : String) : Principal :=
  c.principalFromHash (phoneNumber ++ ":" ++ pin ++ ":icpnomad_salt_2024")

/-- Validates PIN format (exactly 4 digits).  Character-level operations
are phrased over `String.toList` so that they compute by kernel reduction. -/
def isValidPin (pin : String) : Bool :=
  pin.toList.length = 4 && pin.toList.all (fun ch => decide ('0' ≤ ch) && decide (ch ≤ '9'))

/-- Validates phone number format (length 10–15, digits / `+` / `-` / space). -/
def isValidPhoneNumber (phoneNumber : String) : Bool :=
  10 ≤ phoneNumber.toList.length && phoneNumber.toList.length ≤ 15 &&
    phoneNumber.toList.all (fun ch =>
      (decide ('0' ≤ ch) && decide (ch ≤ '9')) || ch = '+' || ch = '-' || ch = ' ')

/-- Time bucket for timestamp indexing (rounds down to the hour). -/
def getTimeBucket (timestamp : Int) : Int :=
  (timestamp / 3600000000000) * 3600000000000

/-- Checks whether an account is locked due to failed attempts. -/
def isAccountLocked (now : Int) (user : User) : Bool :=
  if !user.isLocked then false
  else
    match user.lockoutUntil with
    | none => user.isLocked
    | some unlockTime => if now ≥ unlockTime then false else true

/-- The whole mutable canister state: the four keyed stores, the three
secondary indices and the two counters. -/
structure CanisterState where
  users : List (Principal × User)
  wallets : List (Principal × Wallet)
  transactions : List (Nat × Transaction)
  userTransactions : List (Principal × List Nat)
  timestampIndex : List (Int × List Nat)
  typeIndex : List (TransactionType × List Nat)
  transactionCounter : Nat
  userCounter : Nat
deriving DecidableEq, Repr

/-- The initial (empty) canister state. -/
def initState : CanisterState :=
  { users := [], wallets := [], transactions := [], userTransactions := []
    timestampIndex := [], typeIndex := [], transactionCounter := 0, userCounter := 0 }

/-- Creates a new user record (also bumps the user counter, returned with
the record since the counter lives in the state). -/
def createUser (c : CryptoModel) (now : Int)
    (address : Principal) (phoneNumber pin : String) : User :=
  { address := address
    pinHash := hashPin c phoneNumber pin
    createdAt := now
    lastActivity := now
    failedAttempts := 0
    lastFailedAttempt := none
    isLocked := false
    lockoutUntil := none
    transactionCount := 0 }

/-- Updates user activity timestamp and resets failed attempts. -/
def updateUserActivity (now : Int) (user : User) : User :=
  { address := user.address
    pinHash := user.pinHash
    createdAt := user.createdAt
    lastActivity := now
    failedAttempts := 0
    lastFailedAttempt := none
    isLocked := false
    lockoutUntil := none
    transactionCount := user.transactionCount }

/-- Updates user failed authentication attempts, locking the account when
the threshold is reached. -/
def updateFailedAttempts (now : Int) (user : User) : User :=
  let newFailedAttempts := user.failedAttempts + 1
  let shouldLock := maxFailedAttempts ≤ newFailedAttempts
  let lockoutUntil : Option Int := if shouldLock then some (now + lockoutDuration) else none
  { address := user.address
    pinHash := user.pinHash
    createdAt := user.createdAt
    lastActivity := user.lastActivity
    failedAttempts := newFailedAttempts
    lastFailedAttempt := some now
    isLocked := shouldLock
    lockoutUntil := lockoutUntil
    transactionCount := user.transactionCount }

/-- Increments the cached user transaction count. -/
def incrementUserTransactionCount (user : User) : User :=
  { user with transactionCount := user.transactionCount + 1 }

/-- Creates a new (zero-balance) wallet record. -/
def createWallet (now : Int) (address : Principal) : Wallet :=
  { address := address
    icpBalance := 0
    stablecoinBalance := 0
    reservedIcp := 0
    reservedStablecoin := 0
    lastBalanceUpdate := now
    totalDeposited := 0
    totalWithdrawn := 0 }

/-- Updates the wallet stablecoin balance and lifetime counters. -/
def updateWalletStablecoinBalance (now : Int) (wallet : Wallet)
    (newBalance : Nat) (isDeposit : Bool) : Wallet :=
  { address := wallet.address
    icpBalance := wallet.icpBalance
    stablecoinBalance := newBalance
    reservedIcp := wallet.reservedIcp
    reservedStablecoin := wallet.reservedStablecoin
    lastBalanceUpdate := now
    totalDeposited :=
      if isDeposit then wallet.totalDeposited + (newBalance - wallet.stablecoinBalance)
      else wallet.totalDeposited
    totalWithdrawn :=
      if !isDeposit && newBalance < wallet.stablecoinBalance then
        wallet.totalWithdrawn + (wallet.stablecoinBalance - newBalance)
      else wallet.totalWithdrawn }

/-- Generates the next transaction id atomically (counter increment). -/
def getNextTransactionId (s : CanisterState) : Nat × CanisterState :=
  (s.transactionCounter + 1, { s with transactionCounter := s.transactionCounter + 1 })

/-- Updates the per-user transaction index, trimming to the most recent
`maxTransactionsPerUser` entries. -/
def updateUserTransactionIndex (userAddress : Principal) (txId : Nat)
    (s : CanisterState) : CanisterState :=
  match mget s.userTransactions userAddress with
  | some existingTxs =>
      let newTxs := existingTxs ++ [txId]
      let trimmedTxs :=
        if maxTransactionsPerUser < newTxs.length then
          newTxs.drop (newTxs.length - maxTransactionsPerUser)
        else newTxs
      { s with userTransactions := mput s.userTransactions userAddress trimmedTxs }
  | none =>
      { s with userTransactions := mput s.userTransactions userAddress [txId] }

/-- Updates the timestamp index (hour buckets). -/
def updateTimestampIndex (timestamp : Int) (txId : Nat) (s : CanisterState) : CanisterState :=
  let timeBucket := getTimeBucket timestamp
  match mget s.timestampIndex timeBucket with
  | some existingTxs =>
      { s with timestampIndex := mput s.timestampIndex timeBucket (existingTxs ++ [txId]) }
  | none =>
      { s with timestampIndex := mput s.timestampIndex timeBucket [txId] }

/-- Updates the transaction type index. -/
def updateTypeIndex (txType : TransactionType) (txId : Nat) (s : CanisterState) : CanisterState :=
  match mget s.typeIndex txType with
  | some existingTxs =>
      { s with typeIndex := mput s.typeIndex txType (existingTxs ++ [txId]) }
  | none =>
      { s with typeIndex := mput s.typeIndex txType [txId] }

/-- Creates a new transaction record and updates all indices; returns the
fresh transaction id. -/
def createAndStoreTransaction (now : Int) (txType : TransactionType) (amount : Nat)
    (fromAddress toAddress : Option Principal) (tokenType : String)
    (signature : Option String) (s : CanisterState) : Nat × CanisterState :=
  let (txId, s1) := getNextTransactionId s
  let transaction : Transaction :=
    { id := txId, txType := txType, amount := amount, timestamp := now
      status := TransactionStatus.completed, fromAddress := fromAddress
      toAddress := toAddress, tokenType := tokenType, signature := signature
      blockIndex := none }
  let s2 := { s1 with transactions := mput s1.transactions txId transaction }
  let s3 :=
    match fromAddress with
    | some addr => updateUserTransactionIndex addr txId s2
    | none => s2
  let s4 :=
    match toAddress with
    | some addr => updateUserTransactionIndex addr txId s3
    | none => s3
  let s5 := updateTimestampIndex now txId s4
  let s6 := updateTypeIndex txType txId s5
  (txId, s6)

/-- Authenticates a user, returning both user and wallet records; every
call, success or failure, persists the updated user record. -/
def authenticateUser (c : CryptoModel) (now : Int) (phoneNumber pin : String)
    (s : CanisterState) : Res (User × Wallet) × CanisterState :=
  if !isValidPhoneNumber phoneNumber || !isValidPin pin then
    (Res.err WalletError.invalidCredentials, s)
  else
    let walletAddress := deriveWalletAddress c phoneNumber pin
    match mget s.users walletAddress with
    | some user =>
        if isAccountLocked now user then
          (Res.err WalletError.accountLocked, s)
        else if verifyPin c phoneNumber pin user.pinHash then
          match mget s.wallets walletAddress with
          | some wallet =>
              let updatedUser := updateUserActivity now user
              (Res.ok (updatedUser, wallet),
                { s with users := mput s.users walletAddress updatedUser })
          | none => (Res.err WalletError.walletNotFound, s)
        else
          let updatedUser := updateFailedAttempts now user
          (Res.err WalletError.invalidCredentials,
            { s with users := mput s.users walletAddress updatedUser })
    | none => (Res.err WalletError.userNotFound, s)

/-- Generates a new wallet for a (phone, PIN) pair: validates inputs,
derives the address, rejects duplicates, else atomically creates the user
record, the wallet record and an empty transaction history. -/
def generateWallet (c : CryptoModel) (now : Int) (phoneNumber pin : String)
    (s : CanisterState) : Res Principal × CanisterState :=
  if !isValidPhoneNumber phoneNumber then
    (Res.err WalletError.invalidCredentials, s)
  else if !isValidPin pin then
    (Res.err WalletError.invalidCredentials, s)
  else
    let walletAddress := deriveWalletAddress c phoneNumber pin
    match mget s.users walletAddress with
    | some _ => (Res.err WalletError.addressAlreadyExists, s)
    | none =>
        let newUser := createUser c now walletAddress phoneNumber pin
        let s1 := { s with users := mput s.users walletAddress newUser
                           userCounter := s.userCounter + 1 }
        let newWallet := createWallet now walletAddress
        let s2 := { s1 with wallets := mput s1.wallets walletAddress newWallet }
        let s3 := { s2 with userTransactions := mput s2.userTransactions walletAddress [] }
        (Res.ok walletAddress, s3)

/-- Deposits stablecoins: authenticate, credit the balance, append a
ledger record, bump the cached transaction count. -/
def depositStablecoin (c : CryptoModel) (now : Int) (phoneNumber pin : String)
    (amount : Nat) (signature : Option String)
    (s : CanisterState) : Res Unit × CanisterState :=
  if amount = 0 then (Res.err WalletError.invalidAmount, s)
  else
    match authenticateUser c now phoneNumber pin s with
    | (Res.err e, s1) => (Res.err e, s1)
    | (Res.ok (user, wallet), s1) =>
        let newBalance := wallet.stablecoinBalance + amount
        let updatedWallet := updateWalletStablecoinBalance now wallet newBalance true
        let s2 := { s1 with wallets := mput s1.wallets wallet.address updatedWallet }
        let (_, s3) := createAndStoreTransaction now TransactionType.stablecoinDeposit
          amount none (some wallet.address) "STABLECOIN" signature s2
        let updatedUser := incrementUserTransactionCount user
        let s4 := { s3 with users := mput s3.users user.address updatedUser }
        (Res.ok (), s4)

/-- Withdraws stablecoins: authenticate, check sufficiency, debit the
balance, append a ledger record, bump the cached transaction count. -/
def withdrawStablecoin (c : CryptoModel) (now : Int) (phoneNumber pin : String)
    (amount : Nat) (signature : Option String)
    (s : CanisterState) : Res Unit × CanisterState :=
  if amount = 0 then (Res.err WalletError.invalidAmount, s)
  else
    match authenticateUser c now phoneNumber pin s with
    | (Res.err e, s1) => (Res.err e, s1)
    | (Res.ok (user, wallet), s1) =>
        if wallet.stablecoinBalance < amount then
          (Res.err WalletError.insufficientFunds, s1)
        else
          let newBalance := wallet.stablecoinBalance - amount
          let updatedWallet := updateWalletStablecoinBalance now wallet newBalance false
          let s2 := { s1 with wallets := mput s1.wallets wallet.address updatedWallet }
          let (_, s3) := createAndStoreTransaction now TransactionType.stablecoinWithdrawal
            amount (some wallet.address) none "STABLECOIN" signature s2
          let updatedUser := incrementUserTransactionCount user
          let s4 := { s3 with users := mput s3.users user.address updatedUser }
          (Res.ok (), s4)

/-- Transfers stablecoins: authenticate the sender, check sufficiency,
derive the recipient address from the recipient phone with the placeholder
PIN "0000", reject self-transfer, require the recipient wallet to exist,
debit sender, credit recipient, append one ledger record referencing both
sides, bump both cached transaction counts. -/
def transferStablecoin (c : CryptoModel) (now : Int)
    (phoneNumber pin recipientPhoneNumber : String) (amount : Nat)
    (signature : Option String)
    (s : CanisterState) : Res Unit × CanisterState :=
  if !isValidPhoneNumber recipientPhoneNumber then
    (Res.err WalletError.invalidCredentials, s)
  else if amount = 0 then (Res.err WalletError.invalidAmount, s)
  else
    match authenticateUser c now phoneNumber pin s with
    | (Res.err e, s1) => (Res.err e, s1)
    | (Res.ok (senderUser, senderWallet), s1) =>
        if senderWallet.stablecoinBalance < amount then
          (Res.err WalletError.insufficientFunds, s1)
        else
          let recipientAddress := deriveWalletAddress c recipientPhoneNumber "0000"
          if senderWallet.address = recipientAddress then
            (Res.err WalletError.invalidAmount, s1)
          else
            match mget s1.wallets recipientAddress with
            | some recipientWallet =>
                let newSenderBalance := senderWallet.stablecoinBalance - amount
                let updatedSenderWallet :=
                  updateWalletStablecoinBalance now senderWallet newSenderBalance false
                let s2 := { s1 with wallets := mput s1.wallets senderWallet.address updatedSenderWallet }
                let newRecipientBalance := recipientWallet.stablecoinBalance + amount
                let updatedRecipientWallet :=
                  updateWalletStablecoinBalance now recipientWallet newRecipientBalance true
                let s3 := { s2 with wallets := mput s2.wallets recipientAddress updatedRecipientWallet }
                let (_, s4) := createAndStoreTransaction now TransactionType.stablecoinTransfer
                  amount (some senderWallet.address) (some recipientAddress)
                  "STABLECOIN" signature s3
                let updatedSenderUser := incrementUserTransactionCount senderUser
                let s5 := { s4 with users := mput s4.users senderUser.address updatedSenderUser }
                let s6 :=
                  match mget s5.users recipientAddress with
                  | some recipientUser =>
                      let updatedRecipientUser := incrementUserTransactionCount recipientUser
                      { s5 with users := mput s5.users recipientAddress updatedRecipientUser }
                  | none => s5
                (Res.ok (), s6)
            | none => (Res.err WalletError.walletNotFound, s1)

/-- Guarded `Nat` subtraction: Motoko `Nat` subtraction traps on
underflow; `none` models the trap. -/
def natSubG (a b : Nat) : Option Nat :=
  if b ≤ a then some (a - b) else none

/-- Guarded `Nat` division: Motoko division traps on a zero divisor;
`none` models the trap. -/
def natDivG (a b : Nat) : Option Nat :=
  if b = 0 then none else some (a / b)

/-- The in-memory sort comparator of `getTransactionHistory`: keyed by
`sortBy` ("timestamp" / "amount", anything else compares equal) and
direction `sortOrder` ("desc" reverses). -/
def txCompare (sortBy sortOrder : String) (a b : Transaction) : Ordering :=
  if sortBy = "timestamp" then
    if sortOrder = "desc" then
      if b.timestamp < a.timestamp then Ordering.lt
      else if a.timestamp < b.timestamp then Ordering.gt
      else Ordering.eq
    else
      if a.timestamp < b.timestamp then Ordering.lt
      else if b.timestamp < a.timestamp then Ordering.gt
      else Ordering.eq
  else if sortBy = "amount" then
    if sortOrder = "desc" then
      if b.amount < a.amount then Ordering.lt
      else if a.amount < b.amount then Ordering.gt
      else Ordering.eq
    else
      if a.amount < b.amount then Ordering.lt
      else if b.amount < a.amount then Ordering.gt
      else Ordering.eq
  else Ordering.eq

/-- Insertion step of the comparator-driven sort. -/
def insertCmp (cmp : Transaction → Transaction → Ordering) (a : Transaction) :
    List Transaction → List Transaction
  | [] => [a]
  | b :: t =>
      match cmp a b with
      | Ordering.lt => a :: b :: t
      | _ => b :: insertCmp cmp a t

/-- Comparator-driven sort, modelling Motoko `Array.sort` (the claims
only depend on the output being a reordering, which any comparison sort
satisfies). -/
def sortCmp (cmp : Transaction → Transaction → Ordering) :
    List Transaction → List Transaction
  | [] => []
  | a :: t => insertCmp cmp a (sortCmp cmp t)

/-- The default pagination parameters used when none are supplied. -/
def defaultPagination : PaginationParams :=
  { page := 0, pageSize := 50, sortBy := "timestamp", sortOrder := "desc" }

/-- Paginated transaction history query: authenticate, resolve the
by-account index to records (skipping dangling ids), sort, slice the
requested page, and compute `totalPages = (totalCount + pageSize - 1) /
pageSize` with trapping `Nat` arithmetic (`none` = trap).  A Motoko query
cannot persist state changes, so only the result is returned. -/
def getTransactionHistory (c : CryptoModel) (now : Int) (phoneNumber pin : String)
    (pagination : Option PaginationParams) (s : CanisterState) :
    Option (Res (PaginatedResult Transaction)) :=
  match (authenticateUser c now phoneNumber pin s).1 with
  | Res.err e => some (Res.err e)
  | Res.ok (_, wallet) =>
      let params := match pagination with
        | some p => p
        | none => defaultPagination
      match mget s.userTransactions wallet.address with
      | some txIds =>
          let allTxs := txIds.filterMap (fun txId => mget s.transactions txId)
          let totalCount := allTxs.length
          let sortedTxs := sortCmp (txCompare params.sortBy params.sortOrder) allTxs
          let startIndex := params.page * params.pageSize
          let endIndex := min (startIndex + params.pageSize) totalCount
          let paginatedTxs :=
            if totalCount ≤ startIndex then ([] : List Transaction)
            else (sortedTxs.drop startIndex).take (endIndex - startIndex)
          match natSubG (totalCount + params.pageSize) 1 with
          | none => none
          | some t =>
              match natDivG t params.pageSize with
              | none => none
              | some totalPages =>
                  some (Res.ok
                    { data := paginatedTxs, totalCount := totalCount
                      page := params.page, pageSize := params.pageSize
                      totalPages := totalPages })
      | none =>
          some (Res.ok
            { data := [], totalCount := 0, page := params.page
              pageSize := params.pageSize, totalPages := 0 })

/-- The mutating entry points of the canister, with their explicit call
time; queries cannot persist state changes and so are excluded. -/
inductive Op where
  | genWallet (now : Int) (phoneNumber pin : String)
  | deposit (now : Int) (phoneNumber pin : String) (amount : Nat) (signature : Option String)
  | withdraw (now : Int) (phoneNumber pin : String) (amount : Nat) (signature : Option String)
  | transfer (now : Int) (phoneNumber pin recipientPhoneNumber : String) (amount : Nat)
      (signature : Option String)

/-- State transition of one mutating call (the returned value is dropped;
Motoko persists the state either way). -/
def applyOp (c : CryptoModel) (s : CanisterState) : Op → CanisterState
  | Op.genWallet now phone pin => (generateWallet c now phone pin s).2
  | Op.deposit now phone pin amount sig => (depositStablecoin c now phone pin amount sig s).2
  | Op.withdraw now phone pin amount sig => (withdrawStablecoin c now phone pin amount sig s).2
  | Op.transfer now phone pin rphone amount sig =>
      (transferStablecoin c now phone pin rphone amount sig s).2

/-- States reachable from the empty canister by mutating calls. -/
inductive Reachable (c : CryptoModel) : CanisterState → Prop where
  | init : Reachable c initState
  | step {s : CanisterState} (h : Reachable c s) (op : Op) : Reachable c (applyOp c s op)

/-- Total stablecoin held across all wallets (the quantity conserved by
transfers). -/
def sumStable (l : List (Principal × Wallet)) : Nat :=
  (l.map (fun pw => pw.2.stablecoinBalance)).sum

/-- One step never mutates or deletes a stored transaction record. -/
def TxPreserved (s t : CanisterState) : Prop :=
  ∀ k tx, mget s.transactions k = some tx → mget t.transactions k = some tx

/-- A transaction id assigned by one step is strictly greater than every
previously assigned id. -/
def FreshIdsGreater (s t : CanisterState) : Prop :=
  ∀ k tx, mget s.transactions k = none → mget t.transactions k = some tx →
    ∀ j tx2, mget s.transactions j = some tx2 → j < k

/-- Every stored transaction's id appears in the by-account index of each
identity it references, exactly once (the literal invariant of the spec). -/
def TxIndexComplete (s : CanisterState) : Prop :=
  ∀ k tx p, mget s.transactions k = some tx →
    (tx.fromAddress = some p ∨ tx.toAddress = some p) →
    ∃ l, mget s.userTransactions p = some l ∧ l.count k = 1

/-- The cap-aware version of the index invariant: a stored transaction's id
appears in the by-account index of each referenced identity at most once,
and exactly once unless that identity's index has reached the
`maxTransactionsPerUser` cap (in which case the id may have been evicted). -/
def TxIndexAmended (s : CanisterState) : Prop :=
  ∀ k tx p, mget s.transactions k = some tx →
    (tx.fromAddress = some p ∨ tx.toAddress = some p) →
    ∃ l, mget s.userTransactions p = some l ∧
      (l.count k = 1 ∨ (k ∉ l ∧ l.length = maxTransactionsPerUser))

/-- The cap-aware per-entry property of one by-account index entry with
respect to one stored transaction id. -/
def entryProp (k : Nat) (l : List Nat) : Prop :=
  l.count k = 1 ∨ (k ∉ l ∧ l.length = maxTransactionsPerUser)

/-- Every index entry holds only ids at most `N` and respects the cap. -/
def IdxBound (N : Nat) (m : List (Principal × List Nat)) : Prop :=
  ∀ p l, mget m p = some l →
    (∀ j, j ∈ l → j ≤ N) ∧ l.length ≤ maxTransactionsPerUser

/-- Auxiliary invariant: every stored transaction id is positive and at
most the current counter value. -/
def CtrInv (s : CanisterState) : Prop :=
  ∀ k tx, mget s.transactions k = some tx → 1 ≤ k ∧ k ≤ s.transactionCounter

/-- Auxiliary invariant: every by-account index entry holds only already
assigned ids and respects the per-user cap. -/
def IdxInv (s : CanisterState) : Prop :=
  IdxBound s.transactionCounter s.userTransactions

/-- Auxiliary invariant: wallet records are stored under their own address. -/
def WalletKeyInv (s : CanisterState) : Prop :=
  ∀ a w, mget s.wallets a = some w → w.address = a

/-- Auxiliary invariant: a wallet never exists without its user record. -/
def WalletUserInv (s : CanisterState) : Prop :=
  ∀ a w, mget s.wallets a = some w → (mget s.users a).isSome = true

/-- Auxiliary invariant: every identity referenced by a stored transaction
has a user record. -/
def RefUserInv (s : CanisterState) : Prop :=
  ∀ k tx p, mget s.transactions k = some tx →
    (tx.fromAddress = some p ∨ tx.toAddress = some p) →
    (mget s.users p).isSome = true

/-- The combined induction invariant for the ledger/index theorems. -/
def LedgerInv (s : CanisterState) : Prop :=
  CtrInv s ∧ IdxInv s ∧ WalletKeyInv s ∧ WalletUserInv s ∧ RefUserInv s ∧ TxIndexAmended s

/-- Concrete crypto model used for witnesses: `sha256hex` keeps the salted
input, `principalFromHash` keeps the phone-number prefix of the salted
input (so distinct phones get distinct principals). -/
def cW : CryptoModel :=
  { sha256hex := id
    principalFromHash := fun str => (str.toList.takeWhile (fun ch => ch ≠ ':')).asString }

/-- Witness phone number of the primary account. -/
def ph1 : String := "1234567890"

/-- Witness phone number of the recipient account. -/
def ph2 : String := "2234567890"

/-- Witness PIN of the primary account. -/
def pinW : String := "1111"

/-- A wrong PIN for the primary account. -/
def badPin : String := "2222"

/-- Witness principal of the primary account. -/
def aW : Principal := "1234567890"

/-- Witness principal of the recipient account. -/
def bW : Principal := "2234567890"

/-- Stored PIN hash of the primary witness account under `cW`. -/
def hpW : String := "1234567890:1111:icpnomad_security_salt_2024"

/-- Witness state: primary account registered at time 0. -/
def sReg : CanisterState := (generateWallet cW 0 ph1 pinW initState).2

/-- Witness state: primary and recipient accounts registered (the
recipient under the placeholder PIN used for transfer derivation). -/
def sTwo : CanisterState := (generateWallet cW 0 ph2 "0000" sReg).2

/-- Witness state: both accounts registered and the primary account funded
with 50 stablecoin units. -/
def sFunded : CanisterState := (depositStablecoin cW 0 ph1 pinW 50 none sTwo).2

/-- `n` further unit deposits applied to a state (all at time 0). -/
def depositN (c : CryptoModel) (phone pin : String) : Nat → CanisterState → CanisterState
  | 0, s => s
  | n + 1, s => (depositStablecoin c 0 phone pin 1 none (depositN c phone pin n s)).2

/-- Closed form of the primary user record after `n` unit deposits. -/
def userAfter (n : Nat) : User :=
  { address := aW, pinHash := hpW, createdAt := 0, lastActivity := 0
    failedAttempts := 0, lastFailedAttempt := none, isLocked := false
    lockoutUntil := none, transactionCount := n }

/-- Closed form of the primary wallet record after `n` unit deposits. -/
def walletAfter (n : Nat) : Wallet :=
  { address := aW, icpBalance := 0, stablecoinBalance := n, reservedIcp := 0
    reservedStablecoin := 0, lastBalanceUpdate := 0, totalDeposited := n
    totalWithdrawn := 0 }

/-- Closed form of the `k`-th deposit transaction record. -/
def txRec (k : Nat) : Transaction :=
  { id := k, txType := TransactionType.stablecoinDeposit, amount := 1, timestamp := 0
    status := TransactionStatus.completed, fromAddress := none, toAddress := some aW
    tokenType := "STABLECOIN", signature := none, blockIndex := none }

/-- Closed form of the whole canister state after `n` unit deposits
(for `1 ≤ n`): ids `1..n` are stored, and the by-account index holds the
most recent `maxTransactionsPerUser` of them. -/
def stateAfter (n : Nat) : CanisterState :=
  { users := [(aW, userAfter n)]
    wallets := [(aW, walletAfter n)]
    transactions := (List.range' 1 n).map (fun k => (k, txRec k))
    userTransactions := [(aW, (List.range' 1 n).drop (n - maxTransactionsPerUser))]
    timestampIndex := [(0, List.range' 1 n)]
    typeIndex := [(TransactionType.stablecoinDeposit, List.range' 1 n)]
    transactionCounter := n
    userCounter := 1 }

/-- The state left behind by a sequence of authentication attempts with a
fixed (phone, PIN) at the given call times. -/
def failChain (c : CryptoModel) (phone pinAttempt : String) (ts : List Int)
    (s : CanisterState) : CanisterState :=
  List.foldl (fun ss t => (authenticateUser c t phone pinAttempt ss).2) s ts

/-- Closed-form characterization of the store components that drive the
deposit recursion, after `n` unit deposits on the registered witness
account: ids `1..n` are stored and the by-account index holds the most
recent `maxTransactionsPerUser` of them. -/
def PartialSpec (n : Nat) (s : CanisterState) : Prop :=
  s.users = [(aW, userAfter n)] ∧
  s.wallets = [(aW, walletAfter n)] ∧
  s.transactions = (List.range' 1 n).map (fun k => (k, txRec k)) ∧
  s.userTransactions = [(aW, (List.range' 1 n).drop (n - maxTransactionsPerUser))] ∧
  s.transactionCounter = n

/-- Five consecutive failed authentication attempts at times 10–14,
starting from the freshly registered witness state. -/
def sLockedW : CanisterState :=
  failChain cW ph1 badPin [10, 11, 12, 13, 14] sReg

/-- The locked user record reached in `sLockedW`. -/
def uLockedW : User :=
  { address := aW, pinHash := hpW, createdAt := 0, lastActivity := 0
    failedAttempts := 5, lastFailedAttempt := some 14, isLocked := true
    lockoutUntil := some 3600000000014, transactionCount := 0 }

/-- A valid-format phone number that is never registered in the witness
states. -/
def ph3 : String := "3234567890"

/-- Pagination parameters selecting the second page of 50. -/
def pagePar (p : Nat) : PaginationParams :=
  { page := p, pageSize := 50, sortBy := "timestamp", sortOrder := "desc" }

/-- Pagination parameters with an unvalidated zero page size. -/
def zeroPagePar : PaginationParams :=
  { page := 0, pageSize := 0, sortBy := "timestamp", sortOrder := "desc" }

/-- Map-level view of `updateUserTransactionIndex`: the same append-and-trim
on the by-account index, as a pure function of the index map (proof
plumbing; the canister function is proved equal to it). -/
def idxUpdate (m : List (Principal × List Nat)) (a : Principal) (txId : Nat) :
    List (Principal × List Nat) :=
  match mget m a with
  | some existingTxs =>
      let newTxs := existingTxs ++ [txId]
      let trimmedTxs :=
        if maxTransactionsPerUser < newTxs.length then
          newTxs.drop (newTxs.length - maxTransactionsPerUser)
        else newTxs
      mput m a trimmedTxs
  | none => mput m a [txId]

theorem mget_mput_self {α β : Type} [DecidableEq α] (m : List (α × β)) (k : α) (v : β) :
    mget (mput m k v) k = some v := by
  induction m with
  | nil => simp [mput, mget]
  | cons hd tl ih =>
      obtain ⟨a, b⟩ := hd
      by_cases h : a = k
      · simp [mput, mget, h]
      · simp [mput, mget, h, ih]

theorem mget_mput_ne {α β : Type} [DecidableEq α] (m : List (α × β)) (k j : α) (v : β)
    (h : k ≠ j) : mget (mput m k v) j = mget m j := by
  induction m with
  | nil => simp [mput, mget, h]
  | cons hd tl ih =>
      obtain ⟨a, b⟩ := hd
      by_cases ha : a = k
      · subst ha; simp [mput, mget, h]
      · simp [mput, mget, ha, ih]

theorem mget_mput_isSome {α β : Type} [DecidableEq α] (m : List (α × β)) (k j : α) (v : β)
    (h : (mget m j).isSome) : (mget (mput m k v) j).isSome := by
  by_cases hk : k = j
  · subst hk; simp [mget_mput_self]
  · rw [mget_mput_ne m k j v hk]; exact h

theorem mput_fresh_append {α β : Type} [DecidableEq α] (m : List (α × β)) (k : α) (v : β)
    (h : mget m k = none) : mput m k v = m ++ [(k, v)] := by
  induction m with
  | nil => simp [mput]
  | cons hd tl ih =>
      obtain ⟨a, b⟩ := hd
      by_cases ha : a = k
      · simp [mget, ha] at h
      · simp [mget, ha] at h
        simp [mput, ha, ih h]

/-- The state after `authenticateUser` is the old state, possibly with
one user record replaced at the derived address. -/
theorem authenticateUser_state_cases (c : CryptoModel) (now : Int) (phone pin : String)
    (s : CanisterState) :
    (authenticateUser c now phone pin s).2 = s ∨
    ∃ u, (authenticateUser c now phone pin s).2 =
      { s with users := mput s.users (deriveWalletAddress c phone pin) u } := by
  unfold authenticateUser
  dsimp only
  repeat' split
  all_goals first
    | exact Or.inl rfl
    | exact Or.inr ⟨_, rfl⟩

/-- `authenticateUser` mutates only the user store: every other component
of the state is untouched. -/
theorem authenticateUser_effects (c : CryptoModel) (now : Int) (phone pin : String)
    (s : CanisterState) :
    (authenticateUser c now phone pin s).2.wallets = s.wallets ∧
    (authenticateUser c now phone pin s).2.transactions = s.transactions ∧
    (authenticateUser c now phone pin s).2.userTransactions = s.userTransactions ∧
    (authenticateUser c now phone pin s).2.transactionCounter = s.transactionCounter := by
  rcases authenticateUser_state_cases c now phone pin s with h | ⟨u, h⟩ <;>
    rw [h] <;> exact ⟨rfl, rfl, rfl, rfl⟩

/-- `authenticateUser` can change the user store only at the derived
address. -/
theorem authenticateUser_users_ne (c : CryptoModel) (now : Int) (phone pin : String)
    (s : CanisterState) (a : Principal) (h : deriveWalletAddress c phone pin ≠ a) :
    mget (authenticateUser c now phone pin s).2.users a = mget s.users a := by
  rcases authenticateUser_state_cases c now phone pin s with hc | ⟨u, hc⟩
  · rw [hc]
  · rw [hc]; exact mget_mput_ne _ _ _ _ h

/-- C5: a second `generateWallet` call with the same (phone, PIN) returns
`addressAlreadyExists` and leaves the whole state — in particular the
existing user (Account) and wallet records — exactly as it was. -/
theorem c5_duplicate_register_rejected (c : CryptoModel) (t1 t2 : Int)
    (phone pin : String) (s s1 : CanisterState) (addr : Principal)
    (h : generateWallet c t1 phone pin s = (Res.ok addr, s1)) :
    generateWallet c t2 phone pin s1 =
      (Res.err WalletError.addressAlreadyExists, s1) := by
  unfold generateWallet at h ⊢
  by_cases hp : isValidPhoneNumber phone
  case neg => simp [hp] at h
  case pos =>
  by_cases hq : isValidPin pin
  case neg => simp [hp, hq] at h
  case pos =>
  simp only [hp, hq, Bool.not_true, Bool.false_eq_true, if_false] at h ⊢
  rcases hget : mget s.users (deriveWalletAddress c phone pin) with _ | u
  · rw [hget] at h
    simp at h
    obtain ⟨ha, hs⟩ := h
    rw [← hs]
    simp [mget_mput_self]
  · rw [hget] at h
    simp at h

/-- C5 witness: registering the primary witness account a second time on
top of `sReg` is rejected with `addressAlreadyExists` and the state is
untouched. -/
theorem c5_duplicate_register_rejected_witness :
    generateWallet cW 1 ph1 pinW sReg =
      (Res.err WalletError.addressAlreadyExists, sReg) :=
  c5_duplicate_register_rejected cW 0 1 ph1 pinW initState sReg aW (by decide)

/-- C10: `getTransactionHistory` does not validate `pageSize`: with
`pageSize = 0` the `totalPages` computation traps (modelled by the guarded
arithmetic returning `none`) — underflow of `totalCount + pageSize - 1`
when the account has no transactions, division by zero otherwise — instead
of the query returning an error value. -/
theorem c10_zero_page_size_traps :
    getTransactionHistory cW 1 ph1 pinW (some zeroPagePar) sReg = none ∧
    getTransactionHistory cW 1 ph1 pinW (some zeroPagePar)
      (depositN cW ph1 pinW 1 sReg) = none := by
  constructor
  · decide
  · decide

/-- C2: a withdrawal of more than the current stablecoin balance returns
`insufficientFunds` and leaves the whole wallet store — in particular the
balance and every other field of the wallet record — unchanged, while a
withdrawal of exactly the current (positive) balance is not rejected. -/
theorem c2_withdraw_insufficient (c : CryptoModel) (now : Int) (phone pin : String)
    (sig : Option String) (s s1 : CanisterState) (user : User) (w : Wallet)
    (h : authenticateUser c now phone pin s = (Res.ok (user, w), s1)) :
    (∀ amount, w.stablecoinBalance < amount →
      withdrawStablecoin c now phone pin amount sig s =
        (Res.err WalletError.insufficientFunds, s1) ∧
      s1.wallets = s.wallets) ∧
    (w.stablecoinBalance ≠ 0 →
      (withdrawStablecoin c now phone pin w.stablecoinBalance sig s).1 = Res.ok ()) := by
  constructor
  · intro amount hlt
    have hz : ¬ amount = 0 := by omega
    constructor
    · unfold withdrawStablecoin
      rw [if_neg hz, h]
      simp [hlt]
    · have heff := (authenticateUser_effects c now phone pin s).1
      rw [h] at heff
      exact heff
  · intro hnz
    unfold withdrawStablecoin
    rw [if_neg hnz, h]
    simp

/-- C2 witness: on the funded witness account (balance 50), withdrawing 60
is rejected with `insufficientFunds` and withdrawing exactly 50 succeeds. -/
theorem c2_withdraw_insufficient_witness :
    (withdrawStablecoin cW 1 ph1 pinW 60 none sFunded).1 =
      Res.err WalletError.insufficientFunds ∧
    (withdrawStablecoin cW 1 ph1 pinW 60 none sFunded).2.wallets = sFunded.wallets ∧
    (withdrawStablecoin cW 1 ph1 pinW 50 none sFunded).1 = Res.ok () := by
  have h := c2_withdraw_insufficient cW 1 ph1 pinW none sFunded _ _ _ rfl
  refine ⟨?_, ?_, h.2 (by decide)⟩
  · rw [(h.1 60 (by decide)).1]
  · rw [(h.1 60 (by decide)).1]

/-- C7: a transfer whose recipient phone derives an identity with no
existing wallet returns the wallet-not-found error, leaves the whole
wallet store (hence the sender's balance) unchanged, and creates neither a
recipient user record nor a recipient wallet. -/
theorem c7_transfer_recipient_missing (c : CryptoModel) (now : Int)
    (phone pin rphone : String) (sig : Option String) (amount : Nat)
    (s s1 : CanisterState) (senderUser : User) (senderW : Wallet)
    (hval : isValidPhoneNumber rphone = true)
    (hz : ¬ amount = 0)
    (h : authenticateUser c now phone pin s = (Res.ok (senderUser, senderW), s1))
    (hbal : ¬ senderW.stablecoinBalance < amount)
    (hne : ¬ senderW.address = deriveWalletAddress c rphone "0000")
    (hnd : deriveWalletAddress c phone pin ≠ deriveWalletAddress c rphone "0000")
    (hrw : mget s1.wallets (deriveWalletAddress c rphone "0000") = none) :
    transferStablecoin c now phone pin rphone amount sig s =
      (Res.err WalletError.walletNotFound, s1) ∧
    s1.wallets = s.wallets ∧
    mget s1.users (deriveWalletAddress c rphone "0000") =
      mget s.users (deriveWalletAddress c rphone "0000") := by
  refine ⟨?_, ?_, ?_⟩
  · unfold transferStablecoin
    rw [h]
    simp [hval, hz, hbal, hne, hrw]
  · have heff := (authenticateUser_effects c now phone pin s).1
    rw [h] at heff
    exact heff
  · have husers := authenticateUser_users_ne c now phone pin s _ hnd
    rw [h] at husers
    exact husers

/-- C7 witness: transferring 10 from the funded witness account to the
unregistered phone `ph3` fails with `walletNotFound`, leaves every wallet
unchanged and does not create a recipient user record. -/
theorem c7_transfer_recipient_missing_witness :
    (transferStablecoin cW 1 ph1 pinW ph3 10 none sFunded).1 =
      Res.err WalletError.walletNotFound ∧
    (transferStablecoin cW 1 ph1 pinW ph3 10 none sFunded).2.wallets = sFunded.wallets ∧
    mget (transferStablecoin cW 1 ph1 pinW ph3 10 none sFunded).2.users
      (deriveWalletAddress cW ph3 "0000") = none := by
  have h := c7_transfer_recipient_missing cW 1 ph1 pinW ph3 none 10 sFunded _ _ _
    (by decide) (by decide) rfl (by decide) (by decide) (by decide) (by decide)
  refine ⟨?_, ?_, ?_⟩
  · rw [h.1]
  · rw [h.1]
  · rw [h.1]
    rw [h.2.2]
    decide

theorem updateIdx_users (a : Principal) (i : Nat) (s : CanisterState) :
    (updateUserTransactionIndex a i s).users = s.users := by
  unfold updateUserTransactionIndex; split <;> rfl

theorem updateIdx_wallets (a : Principal) (i : Nat) (s : CanisterState) :
    (updateUserTransactionIndex a i s).wallets = s.wallets := by
  unfold updateUserTransactionIndex; split <;> rfl

theorem updateIdx_transactions (a : Principal) (i : Nat) (s : CanisterState) :
    (updateUserTransactionIndex a i s).transactions = s.transactions := by
  unfold updateUserTransactionIndex; split <;> rfl

theorem updateIdx_counter (a : Principal) (i : Nat) (s : CanisterState) :
    (updateUserTransactionIndex a i s).transactionCounter = s.transactionCounter := by
  unfold updateUserTransactionIndex; split <;> rfl

theorem updTime_users (t : Int) (i : Nat) (s : CanisterState) :
    (updateTimestampIndex t i s).users = s.users := by
  unfold updateTimestampIndex; dsimp only; split <;> rfl

theorem updTime_wallets (t : Int) (i : Nat) (s : CanisterState) :
    (updateTimestampIndex t i s).wallets = s.wallets := by
  unfold updateTimestampIndex; dsimp only; split <;> rfl

theorem updTime_transactions (t : Int) (i : Nat) (s : CanisterState) :
    (updateTimestampIndex t i s).transactions = s.transactions := by
  unfold updateTimestampIndex; dsimp only; split <;> rfl

theorem updTime_userTransactions (t : Int) (i : Nat) (s : CanisterState) :
    (updateTimestampIndex t i s).userTransactions = s.userTransactions := by
  unfold updateTimestampIndex; dsimp only; split <;> rfl

theorem updTime_counter (t : Int) (i : Nat) (s : CanisterState) :
    (updateTimestampIndex t i s).transactionCounter = s.transactionCounter := by
  unfold updateTimestampIndex; dsimp only; split <;> rfl

theorem updType_users (ty : TransactionType) (i : Nat) (s : CanisterState) :
    (updateTypeIndex ty i s).users = s.users := by
  unfold updateTypeIndex; split <;> rfl

theorem updType_wallets (ty : TransactionType) (i : Nat) (s : CanisterState) :
    (updateTypeIndex ty i s).wallets = s.wallets := by
  unfold updateTypeIndex; split <;> rfl

theorem updType_transactions (ty : TransactionType) (i : Nat) (s : CanisterState) :
    (updateTypeIndex ty i s).transactions = s.transactions := by
  unfold updateTypeIndex; split <;> rfl

theorem updType_userTransactions (ty : TransactionType) (i : Nat) (s : CanisterState) :
    (updateTypeIndex ty i s).userTransactions = s.userTransactions := by
  unfold updateTypeIndex; split <;> rfl

theorem updType_counter (ty : TransactionType) (i : Nat) (s : CanisterState) :
    (updateTypeIndex ty i s).transactionCounter = s.transactionCounter := by
  unfold updateTypeIndex; split <;> rfl

/-- The by-account index after `updateUserTransactionIndex` contains the
new id at the updated address (the trim keeps the most recent entries, and
the new id is the most recent). -/
theorem updateIdx_mem_self (a : Principal) (i : Nat) (s : CanisterState) :
    ∃ l, mget (updateUserTransactionIndex a i s).userTransactions a = some l ∧ i ∈ l := by
  unfold updateUserTransactionIndex
  rcases hg : mget s.userTransactions a with _ | old
  · exact ⟨[i], mget_mput_self _ _ _, by simp⟩
  · dsimp only
    split
    · refine ⟨_, mget_mput_self _ _ _, ?_⟩
      have hle : (old ++ [i]).length - maxTransactionsPerUser ≤ old.length := by
        simp [maxTransactionsPerUser]
      rw [List.drop_append_of_le_length hle]
      simp
    · exact ⟨_, mget_mput_self _ _ _, by simp⟩

/-- `updateUserTransactionIndex` leaves every other address's index
unchanged. -/
theorem updateIdx_get_ne (a : Principal) (i : Nat) (s : CanisterState) (p : Principal)
    (hp : a ≠ p) :
    mget (updateUserTransactionIndex a i s).userTransactions p =
      mget s.userTransactions p := by
  unfold updateUserTransactionIndex
  split <;> exact mget_mput_ne _ _ _ _ hp

theorem cst_fst (now : Int) (ty : TransactionType) (amt : Nat)
    (fa ta : Option Principal) (tok : String) (sig : Option String) (s : CanisterState) :
    (createAndStoreTransaction now ty amt fa ta tok sig s).1 = s.transactionCounter + 1 := by
  unfold createAndStoreTransaction getNextTransactionId
  rfl

theorem cst_users (now : Int) (ty : TransactionType) (amt : Nat)
    (fa ta : Option Principal) (tok : String) (sig : Option String) (s : CanisterState) :
    (createAndStoreTransaction now ty amt fa ta tok sig s).2.users = s.users := by
  unfold createAndStoreTransaction getNextTransactionId
  dsimp only
  cases fa <;> cases ta <;>
    simp [updType_users, updTime_users, updateIdx_users]

theorem cst_wallets (now : Int) (ty : TransactionType) (amt : Nat)
    (fa ta : Option Principal) (tok : String) (sig : Option String) (s : CanisterState) :
    (createAndStoreTransaction now ty amt fa ta tok sig s).2.wallets = s.wallets := by
  unfold createAndStoreTransaction getNextTransactionId
  dsimp only
  cases fa <;> cases ta <;>
    simp [updType_wallets, updTime_wallets, updateIdx_wallets]

theorem cst_counter (now : Int) (ty : TransactionType) (amt : Nat)
    (fa ta : Option Principal) (tok : String) (sig : Option String) (s : CanisterState) :
    (createAndStoreTransaction now ty amt fa ta tok sig s).2.transactionCounter =
      s.transactionCounter + 1 := by
  unfold createAndStoreTransaction getNextTransactionId
  dsimp only
  cases fa <;> cases ta <;>
    simp [updType_counter, updTime_counter, updateIdx_counter]

theorem cst_transactions (now : Int) (ty : TransactionType) (amt : Nat)
    (fa ta : Option Principal) (tok : String) (sig : Option String) (s : CanisterState) :
    (createAndStoreTransaction now ty amt fa ta tok sig s).2.transactions =
      mput s.transactions (s.transactionCounter + 1)
        { id := s.transactionCounter + 1, txType := ty, amount := amt, timestamp := now
          status := TransactionStatus.completed, fromAddress := fa, toAddress := ta
          tokenType := tok, signature := sig, blockIndex := none } := by
  unfold createAndStoreTransaction getNextTransactionId
  dsimp only
  cases fa <;> cases ta <;>
    simp [updType_transactions, updTime_transactions, updateIdx_transactions]

/-- The transaction id freshly stored by `createAndStoreTransaction` is in
the by-account index of the referenced recipient. -/
theorem cst_index_mem_to (now : Int) (ty : TransactionType) (amt : Nat)
    (fa : Option Principal) (rA : Principal) (tok : String) (sig : Option String)
    (s : CanisterState) :
    ∃ l, mget (createAndStoreTransaction now ty amt fa (some rA) tok sig s).2.userTransactions
      rA = some l ∧ (s.transactionCounter + 1) ∈ l := by
  unfold createAndStoreTransaction getNextTransactionId
  dsimp only
  cases fa <;>
    simp only [updType_userTransactions, updTime_userTransactions] <;>
    exact updateIdx_mem_self _ _ _

/-- The transaction id freshly stored by `createAndStoreTransaction` is in
the by-account index of the referenced sender (when the recipient is a
different identity). -/
theorem cst_index_mem_from (now : Int) (ty : TransactionType) (amt : Nat)
    (sA rA : Principal) (tok : String) (sig : Option String) (s : CanisterState)
    (hne : rA ≠ sA) :
    ∃ l, mget (createAndStoreTransaction now ty amt (some sA) (some rA) tok sig
      s).2.userTransactions sA = some l ∧ (s.transactionCounter + 1) ∈ l := by
  unfold createAndStoreTransaction getNextTransactionId
  dsimp only
  simp only [updType_userTransactions, updTime_userTransactions]
  rw [updateIdx_get_ne rA (s.transactionCounter + 1) _ sA hne]
  exact updateIdx_mem_self _ _ _

/-- Replacing a wallet in the store shifts the balance sum by the
difference between the new and the old record. -/
theorem sumStable_mput (m : List (Principal × Wallet)) (k : Principal) (w w0 : Wallet)
    (h : mget m k = some w0) :
    sumStable (mput m k w) + w0.stablecoinBalance =
      sumStable m + w.stablecoinBalance := by
  induction m with
  | nil => simp [mget] at h
  | cons hd tl ih =>
      obtain ⟨a, b⟩ := hd
      by_cases hak : a = k
      · subst hak
        simp [mget] at h
        subst h
        simp [mput, sumStable]
        omega
      · simp [mget, hak] at h
        have hrec := ih h
        simp [mput, hak, sumStable] at hrec ⊢
        omega

theorem updateIdx_userTransactions (a : Principal) (txId : Nat) (s : CanisterState) :
    (updateUserTransactionIndex a txId s).userTransactions =
      idxUpdate s.userTransactions a txId := by
  unfold updateUserTransactionIndex idxUpdate
  split <;> rfl

theorem idx_get_ne (m : List (Principal × List Nat)) (a : Principal) (txId : Nat)
    (p : Principal) (hp : a ≠ p) : mget (idxUpdate m a txId) p = mget m p := by
  unfold idxUpdate
  split <;> exact mget_mput_ne _ _ _ _ hp

theorem idx_IdxBound (m : List (Principal × List Nat)) (a : Principal) (n N : Nat)
    (hb : IdxBound N m) (hN : N ≤ n) : IdxBound n (idxUpdate m a n) := by
  intro p l hl
  unfold idxUpdate at hl
  rcases hg : mget m a with _ | old
  · rw [hg] at hl
    by_cases hpa : a = p
    · subst hpa
      rw [mget_mput_self] at hl
      injection hl with hl
      subst hl
      refine ⟨?_, ?_⟩
      · intro j hj
        simp at hj
        omega
      · simp [maxTransactionsPerUser]
    · rw [mget_mput_ne _ _ _ _ hpa] at hl
      exact ⟨fun j hj => le_trans ((hb p l hl).1 j hj) hN, (hb p l hl).2⟩
  · rw [hg] at hl
    dsimp only at hl
    by_cases hpa : a = p
    · subst hpa
      rw [mget_mput_self] at hl
      injection hl with hl
      subst hl
      obtain ⟨hbound, hlen⟩ := hb _ old hg
      by_cases htrim : maxTransactionsPerUser < (old ++ [n]).length
      · rw [if_pos htrim]
        refine ⟨?_, ?_⟩
        · intro j hj
          have hj2 := List.drop_subset _ _ hj
          rcases List.mem_append.1 hj2 with hjo | hjn
          · exact le_trans (hbound j hjo) hN
          · simp at hjn; omega
        · rw [List.length_drop]
          simp [List.length_append] at htrim ⊢
          omega
      · rw [if_neg htrim]
        refine ⟨?_, ?_⟩
        · intro j hj
          rcases List.mem_append.1 hj with hjo | hjn
          · exact le_trans (hbound j hjo) hN
          · simp at hjn; omega
        · simp [List.length_append] at htrim ⊢
          omega
    · rw [mget_mput_ne _ _ _ _ hpa] at hl
      exact ⟨fun j hj => le_trans ((hb p l hl).1 j hj) hN, (hb p l hl).2⟩

theorem idx_entryProp_old (m : List (Principal × List Nat)) (a : Principal) (n k : Nat)
    (p : Principal) (hk : k < n)
    (hba : ∀ l, mget m a = some l →
      (∀ j, j ∈ l → j < n) ∧ l.length ≤ maxTransactionsPerUser)
    (hold : ∃ l, mget m p = some l ∧ entryProp k l) :
    ∃ l, mget (idxUpdate m a n) p = some l ∧ entryProp k l := by
  obtain ⟨l0, hl0, hP⟩ := hold
  by_cases hpa : a = p
  case neg => exact ⟨l0, by rw [idx_get_ne m a n p hpa]; exact hl0, hP⟩
  case pos =>
  subst hpa
  obtain ⟨hbound, hlen⟩ := hba l0 hl0
  have hkn : k ≠ n := by omega
  unfold idxUpdate
  rw [hl0]
  dsimp only
  by_cases htrim : maxTransactionsPerUser < (l0 ++ [n]).length
  · have hl0len : l0.length = maxTransactionsPerUser := by
      simp [List.length_append] at htrim
      omega
    obtain ⟨h0, t0, rfl⟩ : ∃ h0 t0, l0 = h0 :: t0 := by
      cases l0 with
      | nil => simp [maxTransactionsPerUser] at hl0len
      | cons x xs => exact ⟨x, xs, rfl⟩
    have hdrop1 : ((h0 :: t0) ++ [n]).length - maxTransactionsPerUser = 1 := by
      simp [List.length_append] at hl0len ⊢
      omega
    rw [if_pos htrim, hdrop1]
    have hteq : ((h0 :: t0) ++ [n]).drop 1 = t0 ++ [n] := rfl
    rw [hteq]
    have hl0len2 : t0.length + 1 = maxTransactionsPerUser := by simpa using hl0len
    refine ⟨_, mget_mput_self _ _ _, ?_⟩
    rcases hP with hc | ⟨hnm, hlm⟩
    · rw [List.count_cons] at hc
      by_cases hhk : k = h0
      · subst hhk
        right
        simp at hc
        have hct : t0.count k = 0 := by omega
        refine ⟨?_, ?_⟩
        · intro hmem
          rcases List.mem_append.1 hmem with hmo | hmn
          · exact (List.count_eq_zero.1 hct) hmo
          · simp at hmn; omega
        · simp [List.length_append]
          omega
      · left
        rw [if_neg (fun hh => hhk (beq_iff_eq.mp hh).symm)] at hc
        simp at hc
        rw [List.count_append, hc]
        simp [hkn]
    · right
      have hknh : k ∉ t0 := fun hh => hnm (List.mem_cons_of_mem _ hh)
      refine ⟨?_, ?_⟩
      · intro hmem
        rcases List.mem_append.1 hmem with hmo | hmn
        · exact hknh hmo
        · simp at hmn; omega
      · simp [List.length_append]
        omega
  · rw [if_neg htrim]
    refine ⟨_, mget_mput_self _ _ _, ?_⟩
    rcases hP with hc | ⟨hnm, hlm⟩
    · left
      rw [List.count_append, hc]
      simp [hkn]
    · exfalso
      simp [List.length_append] at htrim
      omega

theorem idx_entryProp_new (m : List (Principal × List Nat)) (a : Principal) (n : Nat)
    (hba : ∀ l, mget m a = some l →
      (∀ j, j ∈ l → j < n) ∧ l.length ≤ maxTransactionsPerUser) :
    ∃ l, mget (idxUpdate m a n) a = some l ∧ l.count n = 1 := by
  unfold idxUpdate
  rcases hg : mget m a with _ | old
  · exact ⟨[n], mget_mput_self _ _ _, by simp⟩
  · obtain ⟨hbound, hlen⟩ := hba old hg
    have hnold : old.count n = 0 :=
      List.count_eq_zero.2 (fun hh => lt_irrefl n (hbound n hh))
    dsimp only
    by_cases htrim : maxTransactionsPerUser < (old ++ [n]).length
    · have holen : old.length = maxTransactionsPerUser := by
        simp [List.length_append] at htrim
        omega
      obtain ⟨h0, t0, rfl⟩ : ∃ h0 t0, old = h0 :: t0 := by
        cases old with
        | nil => simp [maxTransactionsPerUser] at holen
        | cons x xs => exact ⟨x, xs, rfl⟩
      have hdrop1 : ((h0 :: t0) ++ [n]).length - maxTransactionsPerUser = 1 := by
        simp [List.length_append] at holen ⊢
        omega
      rw [if_pos htrim, hdrop1]
      have hteq : ((h0 :: t0) ++ [n]).drop 1 = t0 ++ [n] := rfl
      rw [hteq]
      refine ⟨_, mget_mput_self _ _ _, ?_⟩
      rw [List.count_cons] at hnold
      have hct : t0.count n = 0 := by
        by_cases hnh : n = h0 <;> simp [hnh] at hnold <;> omega
      rw [List.count_append, hct]
      simp
    · rw [if_neg htrim]
      refine ⟨_, mget_mput_self _ _ _, ?_⟩
      rw [List.count_append, hnold]
      simp

theorem cst_uT_none_none (now : Int) (ty : TransactionType) (amt : Nat) (tok : String)
    (sig : Option String) (S : CanisterState) :
    (createAndStoreTransaction now ty amt none none tok sig S).2.userTransactions =
      S.userTransactions := by
  unfold createAndStoreTransaction getNextTransactionId
  dsimp only
  simp [updType_userTransactions, updTime_userTransactions]

theorem cst_uT_some_none (now : Int) (ty : TransactionType) (amt : Nat) (sA : Principal)
    (tok : String) (sig : Option String) (S : CanisterState) :
    (createAndStoreTransaction now ty amt (some sA) none tok sig S).2.userTransactions =
      idxUpdate S.userTransactions sA (S.transactionCounter + 1) := by
  unfold createAndStoreTransaction getNextTransactionId
  dsimp only
  simp [updType_userTransactions, updTime_userTransactions, updateIdx_userTransactions]

theorem cst_uT_none_some (now : Int) (ty : TransactionType) (amt : Nat) (rA : Principal)
    (tok : String) (sig : Option String) (S : CanisterState) :
    (createAndStoreTransaction now ty amt none (some rA) tok sig S).2.userTransactions =
      idxUpdate S.userTransactions rA (S.transactionCounter + 1) := by
  unfold createAndStoreTransaction getNextTransactionId
  dsimp only
  simp [updType_userTransactions, updTime_userTransactions, updateIdx_userTransactions]

theorem cst_uT_some_some (now : Int) (ty : TransactionType) (amt : Nat) (sA rA : Principal)
    (tok : String) (sig : Option String) (S : CanisterState) :
    (createAndStoreTransaction now ty amt (some sA) (some rA) tok sig S).2.userTransactions =
      idxUpdate (idxUpdate S.userTransactions sA (S.transactionCounter + 1)) rA
        (S.transactionCounter + 1) := by
  unfold createAndStoreTransaction getNextTransactionId
  dsimp only
  simp [updType_userTransactions, updTime_userTransactions, updateIdx_userTransactions]

/-- Facts extracted from a successful authentication: the wallet really is
stored at the derived address, the (updated) user record is stored there
afterwards, and the state changed only by that user-record write. -/
theorem authenticateUser_ok_facts (c : CryptoModel) (now : Int) (phone pin : String)
    (s : CanisterState) {user : User} {wallet : Wallet} {s1 : CanisterState}
    (h : authenticateUser c now phone pin s = (Res.ok (user, wallet), s1)) :
    mget s.wallets (deriveWalletAddress c phone pin) = some wallet ∧
    mget s1.users (deriveWalletAddress c phone pin) = some user ∧
    s1 = { s with users := mput s.users (deriveWalletAddress c phone pin) user } := by
  unfold authenticateUser at h
  dsimp only at h
  by_cases h0 : (!isValidPhoneNumber phone || !isValidPin pin) = true
  · rw [if_pos h0] at h; simp at h
  · rw [if_neg h0] at h
    rcases hu : mget s.users (deriveWalletAddress c phone pin) with _ | u0
    · rw [hu] at h; simp at h
    · rw [hu] at h
      dsimp only at h
      by_cases hl : isAccountLocked now u0 = true
      · rw [if_pos hl] at h; simp at h
      · rw [if_neg hl] at h
        by_cases hv : verifyPin c phone pin u0.pinHash = true
        · rw [if_pos hv] at h
          rcases hw : mget s.wallets (deriveWalletAddress c phone pin) with _ | w0
          · rw [hw] at h; simp at h
          · rw [hw] at h
            dsimp only at h
            have h1 := congrArg Prod.fst h
            have h2 := congrArg Prod.snd h
            dsimp only at h1 h2
            simp only [Res.ok.injEq, Prod.mk.injEq] at h1
            obtain ⟨hu1, hw1⟩ := h1
            subst hu1
            subst hw1
            refine ⟨rfl, ?_, h2.symm⟩
            rw [← h2]
            exact mget_mput_self _ _ _
        · rw [if_neg hv] at h; simp at h

/-- Authentication never deletes a user record. -/
theorem authenticateUser_users_isSome (c : CryptoModel) (now : Int) (phone pin : String)
    (s : CanisterState) (p : Principal)
    (hp : (mget s.users p).isSome = true) :
    (mget (authenticateUser c now phone pin s).2.users p).isSome = true := by
  rcases authenticateUser_state_cases c now phone pin s with hc | ⟨u, hc⟩
  · rw [hc]; exact hp
  · rw [hc]; exact mget_mput_isSome _ _ _ _ hp

/-- The side effects of authentication preserve the ledger invariant. -/
theorem ledgerInv_auth (c : CryptoModel) (now : Int) (phone pin : String)
    (s : CanisterState) (hL : LedgerInv s) :
    LedgerInv (authenticateUser c now phone pin s).2 := by
  rcases authenticateUser_state_cases c now phone pin s with hc | ⟨u, hc⟩
  · rw [hc]; exact hL
  · rw [hc]
    obtain ⟨hCtr, hIdx, hWK, hWU, hRU, hAm⟩ := hL
    refine ⟨hCtr, hIdx, hWK, ?_, ?_, hAm⟩
    · intro a w hw
      exact mget_mput_isSome _ _ _ _ (hWU a w hw)
    · intro k tx p hk href
      exact mget_mput_isSome _ _ _ _ (hRU k tx p hk href)

/-- The timestamp- and type-index updates touch neither the keyed stores
nor the by-account index, so they preserve the ledger invariant. -/
theorem ledgerInv_updTimeType (t : Int) (ty : TransactionType) (i j : Nat)
    (s : CanisterState) (hL : LedgerInv s) :
    LedgerInv (updateTypeIndex ty i (updateTimestampIndex t j s)) := by
  obtain ⟨hCtr, hIdx, hWK, hWU, hRU, hAm⟩ := hL
  refine ⟨?_, ?_, ?_, ?_, ?_, ?_⟩
  · intro k tx hk
    rw [updType_transactions, updTime_transactions] at hk
    rw [updType_counter, updTime_counter]
    exact hCtr k tx hk
  · unfold IdxInv
    rw [updType_counter, updTime_counter, updType_userTransactions,
      updTime_userTransactions]
    exact hIdx
  · intro a w hw
    rw [updType_wallets, updTime_wallets] at hw
    exact hWK a w hw
  · intro a w hw
    rw [updType_wallets, updTime_wallets] at hw
    rw [updType_users, updTime_users]
    exact hWU a w hw
  · intro k tx p hk href
    rw [updType_transactions, updTime_transactions] at hk
    rw [updType_users, updTime_users]
    exact hRU k tx p hk href
  · intro k tx p hk href
    rw [updType_transactions, updTime_transactions] at hk
    rw [updType_userTransactions, updTime_userTransactions]
    exact hAm k tx p hk href

/-- Appending one transaction (record store, counter bump and by-account
index updates) preserves the ledger invariant, provided every referenced
identity has a user record and the two referenced identities are distinct. -/
theorem ledgerInv_cst (now : Int) (ty : TransactionType) (amt : Nat)
    (fa ta : Option Principal) (tok : String) (sig : Option String)
    (S : CanisterState) (hL : LedgerInv S)
    (hfu : ∀ x, fa = some x → (mget S.users x).isSome = true)
    (htu : ∀ x, ta = some x → (mget S.users x).isSome = true)
    (hdist : ∀ x y, fa = some x → ta = some y → x ≠ y) :
    LedgerInv (createAndStoreTransaction now ty amt fa ta tok sig S).2 := by
  obtain ⟨hCtr, hIdx, hWK, hWU, hRU, hAm⟩ := hL
  have hTx := cst_transactions now ty amt fa ta tok sig S
  have hCt := cst_counter now ty amt fa ta tok sig S
  have hUs := cst_users now ty amt fa ta tok sig S
  have hWa := cst_wallets now ty amt fa ta tok sig S
  have hb1 : ∀ a2, ∀ l, mget S.userTransactions a2 = some l →
      (∀ j, j ∈ l → j < S.transactionCounter + 1) ∧
      l.length ≤ maxTransactionsPerUser := by
    intro a2 l hl
    exact ⟨fun j hj => Nat.lt_succ_of_le ((hIdx a2 l hl).1 j hj), (hIdx a2 l hl).2⟩
  have hCtrOut : CtrInv (createAndStoreTransaction now ty amt fa ta tok sig S).2 := by
    intro k tx hk
    rw [hTx] at hk
    rw [hCt]
    by_cases hkn : k = S.transactionCounter + 1
    · subst hkn; omega
    · rw [mget_mput_ne _ _ _ _ (fun hh => hkn hh.symm)] at hk
      have := hCtr k tx hk
      omega
  have hWKOut : WalletKeyInv (createAndStoreTransaction now ty amt fa ta tok sig S).2 := by
    intro a w hw
    rw [hWa] at hw
    exact hWK a w hw
  have hWUOut : WalletUserInv (createAndStoreTransaction now ty amt fa ta tok sig S).2 := by
    intro a w hw
    rw [hWa] at hw
    rw [hUs]
    exact hWU a w hw
  have hRUOut : RefUserInv (createAndStoreTransaction now ty amt fa ta tok sig S).2 := by
    intro k tx p hk href
    rw [hUs]
    rw [hTx] at hk
    by_cases hkn : k = S.transactionCounter + 1
    · subst hkn
      rw [mget_mput_self] at hk
      injection hk with hk
      subst hk
      dsimp only at href
      rcases href with hf | ht
      · exact hfu p hf
      · exact htu p ht
    · rw [mget_mput_ne _ _ _ _ (fun hh => hkn hh.symm)] at hk
      exact hRU k tx p hk href
  have hIdxOut : IdxInv (createAndStoreTransaction now ty amt fa ta tok sig S).2 := by
    unfold IdxInv
    rw [hCt]
    cases fa with
    | none =>
        cases ta with
        | none =>
            rw [cst_uT_none_none]
            intro p l hl
            exact ⟨fun j hj => Nat.le_succ_of_le ((hIdx p l hl).1 j hj), (hIdx p l hl).2⟩
        | some rA =>
            rw [cst_uT_none_some]
            exact idx_IdxBound _ _ _ _ hIdx (Nat.le_succ _)
    | some sA =>
        cases ta with
        | none =>
            rw [cst_uT_some_none]
            exact idx_IdxBound _ _ _ _ hIdx (Nat.le_succ _)
        | some rA =>
            rw [cst_uT_some_some]
            exact idx_IdxBound _ _ _ _
              (idx_IdxBound _ _ _ _ hIdx (Nat.le_succ _)) (le_refl _)
  have hAmOut : TxIndexAmended (createAndStoreTransaction now ty amt fa ta tok sig S).2 := by
    intro k tx p hk href
    rw [hTx] at hk
    by_cases hkn : k = S.transactionCounter + 1
    · subst hkn
      rw [mget_mput_self] at hk
      injection hk with hk
      subst hk
      dsimp only at href
      cases fa with
      | none =>
          cases ta with
          | none =>
              rcases href with hf | ht
              · cases hf
              · cases ht
          | some rA =>
              rcases href with hf | ht
              · cases hf
              · injection ht with ht
                subst ht
                rw [cst_uT_none_some]
                obtain ⟨l, hl, hcnt⟩ := idx_entryProp_new S.userTransactions rA
                  (S.transactionCounter + 1) (hb1 rA)
                exact ⟨l, hl, Or.inl hcnt⟩
      | some sA =>
          cases ta with
          | none =>
              rcases href with hf | ht
              · injection hf with hf
                subst hf
                rw [cst_uT_some_none]
                obtain ⟨l, hl, hcnt⟩ := idx_entryProp_new S.userTransactions sA
                  (S.transactionCounter + 1) (hb1 sA)
                exact ⟨l, hl, Or.inl hcnt⟩
              · cases ht
          | some rA =>
              have hsr : sA ≠ rA := hdist sA rA rfl rfl
              rw [cst_uT_some_some]
              rcases href with hf | ht
              · injection hf with hf
                subst hf
                obtain ⟨l, hl, hcnt⟩ := idx_entryProp_new S.userTransactions sA
                  (S.transactionCounter + 1) (hb1 sA)
                refine ⟨l, ?_, Or.inl hcnt⟩
                rw [idx_get_ne _ _ _ _ (fun hh => hsr hh.symm)]
                exact hl
              · injection ht with ht
                subst ht
                have hb2 : ∀ l, mget (idxUpdate S.userTransactions sA
                    (S.transactionCounter + 1)) rA = some l →
                    (∀ j, j ∈ l → j < S.transactionCounter + 1) ∧
                    l.length ≤ maxTransactionsPerUser := by
                  intro l hl
                  rw [idx_get_ne _ _ _ _ hsr] at hl
                  exact hb1 rA l hl
                obtain ⟨l, hl, hcnt⟩ := idx_entryProp_new
                  (idxUpdate S.userTransactions sA (S.transactionCounter + 1)) rA
                  (S.transactionCounter + 1) hb2
                exact ⟨l, hl, Or.inl hcnt⟩
    · rw [mget_mput_ne _ _ _ _ (fun hh => hkn hh.symm)] at hk
      have hkc : k < S.transactionCounter + 1 := by
        have := hCtr k tx hk
        omega
      have hold := hAm k tx p hk href
      cases fa with
      | none =>
          cases ta with
          | none => rw [cst_uT_none_none]; exact hold
          | some rA =>
              rw [cst_uT_none_some]
              exact idx_entryProp_old _ _ _ _ _ hkc (hb1 rA) hold
      | some sA =>
          cases ta with
          | none =>
              rw [cst_uT_some_none]
              exact idx_entryProp_old _ _ _ _ _ hkc (hb1 sA) hold
          | some rA =>
              have hsr : sA ≠ rA := hdist sA rA rfl rfl
              rw [cst_uT_some_some]
              refine idx_entryProp_old _ _ _ _ _ hkc ?_
                (idx_entryProp_old _ _ _ _ _ hkc (hb1 sA) hold)
              intro l hl
              rw [idx_get_ne _ _ _ _ hsr] at hl
              exact hb1 rA l hl
  exact ⟨hCtrOut, hIdxOut, hWKOut, hWUOut, hRUOut, hAmOut⟩

/-- Branch decomposition of `generateWallet`: either rejected (state
untouched) or a fresh account/wallet/history triple is created. -/
theorem genWallet_cases (c : CryptoModel) (now : Int) (phone pin : String)
    (s : CanisterState) :
    (generateWallet c now phone pin s).2 = s ∨
    (mget s.users (deriveWalletAddress c phone pin) = none ∧
      (generateWallet c now phone pin s).2 =
        { s with
          users := mput s.users (deriveWalletAddress c phone pin)
            (createUser c now (deriveWalletAddress c phone pin) phone pin)
          wallets := mput s.wallets (deriveWalletAddress c phone pin)
            (createWallet now (deriveWalletAddress c phone pin))
          userTransactions := mput s.userTransactions (deriveWalletAddress c phone pin) []
          userCounter := s.userCounter + 1 }) := by
  unfold generateWallet
  by_cases hp : (!isValidPhoneNumber phone) = true
  · left; rw [if_pos hp]
  · rw [if_neg hp]
    by_cases hq : (!isValidPin pin) = true
    · left; rw [if_pos hq]
    · rw [if_neg hq]
      dsimp only
      rcases hu : mget s.users (deriveWalletAddress c phone pin) with _ | u0
      · right; exact ⟨rfl, rfl⟩
      · left; rfl

/-- Branch decomposition of `depositStablecoin`. -/
theorem deposit_cases (c : CryptoModel) (now : Int) (phone pin : String) (amount : Nat)
    (sig : Option String) (s : CanisterState) :
    (depositStablecoin c now phone pin amount sig s).2 = s ∨
    (depositStablecoin c now phone pin amount sig s).2 =
      (authenticateUser c now phone pin s).2 ∨
    (∃ user wallet s1 s3,
      authenticateUser c now phone pin s = (Res.ok (user, wallet), s1) ∧
      s3 = (createAndStoreTransaction now TransactionType.stablecoinDeposit amount none
        (some wallet.address) "STABLECOIN" sig
        { s1 with wallets := mput s1.wallets wallet.address (updateWalletStablecoinBalance now wallet (wallet.stablecoinBalance + amount) true) }).2 ∧
      (depositStablecoin c now phone pin amount sig s).2 =
        { s3 with users := mput s3.users user.address (incrementUserTransactionCount user) }) := by
  unfold depositStablecoin
  by_cases hz : amount = 0
  · left; rw [if_pos hz]
  · rw [if_neg hz]
    rcases hres : authenticateUser c now phone pin s with ⟨res, s1⟩
    cases res with
    | err e => right; left; rfl
    | ok uw =>
        obtain ⟨user, wallet⟩ := uw
        right; right
        exact ⟨user, wallet, s1, _, rfl, rfl, rfl⟩

/-- Branch decomposition of `withdrawStablecoin`. -/
theorem withdraw_cases (c : CryptoModel) (now : Int) (phone pin : String) (amount : Nat)
    (sig : Option String) (s : CanisterState) :
    (withdrawStablecoin c now phone pin amount sig s).2 = s ∨
    (withdrawStablecoin c now phone pin amount sig s).2 =
      (authenticateUser c now phone pin s).2 ∨
    (∃ user wallet s1 s3,
      authenticateUser c now phone pin s = (Res.ok (user, wallet), s1) ∧
      s3 = (createAndStoreTransaction now TransactionType.stablecoinWithdrawal amount
        (some wallet.address) none "STABLECOIN" sig
        { s1 with wallets := mput s1.wallets wallet.address (updateWalletStablecoinBalance now wallet (wallet.stablecoinBalance - amount) false) }).2 ∧
      (withdrawStablecoin c now phone pin amount sig s).2 =
        { s3 with users := mput s3.users user.address (incrementUserTransactionCount user) }) := by
  unfold withdrawStablecoin
  by_cases hz : amount = 0
  · left; rw [if_pos hz]
  · rw [if_neg hz]
    rcases hres : authenticateUser c now phone pin s with ⟨res, s1⟩
    cases res with
    | err e => right; left; rfl
    | ok uw =>
        obtain ⟨user, wallet⟩ := uw
        by_cases hlt : wallet.stablecoinBalance < amount
        · right; left; dsimp only; rw [if_pos hlt]
        · right; right
          refine ⟨user, wallet, s1, _, rfl, rfl, ?_⟩
          dsimp only; rw [if_neg hlt]

/-- Branch decomposition of `transferStablecoin`. -/
theorem transfer_cases (c : CryptoModel) (now : Int) (phone pin rphone : String)
    (amount : Nat) (sig : Option String) (s : CanisterState) :
    (transferStablecoin c now phone pin rphone amount sig s).2 = s ∨
    (transferStablecoin c now phone pin rphone amount sig s).2 =
      (authenticateUser c now phone pin s).2 ∨
    (∃ user wallet s1 recipW s3,
      authenticateUser c now phone pin s = (Res.ok (user, wallet), s1) ∧
      wallet.address ≠ deriveWalletAddress c rphone "0000" ∧
      mget s1.wallets (deriveWalletAddress c rphone "0000") = some recipW ∧
      s3 = (createAndStoreTransaction now TransactionType.stablecoinTransfer amount
        (some wallet.address) (some (deriveWalletAddress c rphone "0000")) "STABLECOIN" sig
        { s1 with wallets := mput (mput s1.wallets wallet.address (updateWalletStablecoinBalance now wallet (wallet.stablecoinBalance - amount) false)) (deriveWalletAddress c rphone "0000") (updateWalletStablecoinBalance now recipW (recipW.stablecoinBalance + amount) true) }).2 ∧
      ((transferStablecoin c now phone pin rphone amount sig s).2 =
          { s3 with users := mput s3.users user.address (incrementUserTransactionCount user) } ∨
        (∃ ru, mget (mput s3.users user.address (incrementUserTransactionCount user))
            (deriveWalletAddress c rphone "0000") = some ru ∧
          (transferStablecoin c now phone pin rphone amount sig s).2 =
            { s3 with users := mput (mput s3.users user.address (incrementUserTransactionCount user)) (deriveWalletAddress c rphone "0000") (incrementUserTransactionCount ru) }))) := by
  unfold transferStablecoin
  by_cases hr : (!isValidPhoneNumber rphone) = true
  · left; rw [if_pos hr]
  · rw [if_neg hr]
    by_cases hz : amount = 0
    · left; rw [if_pos hz]
    · rw [if_neg hz]
      rcases hres : authenticateUser c now phone pin s with ⟨res, s1⟩
      cases res with
      | err e => right; left; rfl
      | ok uw =>
          obtain ⟨user, wallet⟩ := uw
          by_cases hlt : wallet.stablecoinBalance < amount
          · right; left; dsimp only; rw [if_pos hlt]
          · by_cases hself : wallet.address = deriveWalletAddress c rphone "0000"
            · right; left; dsimp only; rw [if_neg hlt, if_pos hself]
            · dsimp only
              rw [if_neg hlt, if_neg hself]
              rcases hrw : mget s1.wallets (deriveWalletAddress c rphone "0000")
                with _ | recipW
              · right; left; rfl
              · right; right
                refine ⟨user, wallet, s1, recipW, _, rfl, hself, hrw, rfl, ?_⟩
                try rw [hrw]
                dsimp only
                split
                next ru hru => exact Or.inr ⟨ru, hru, rfl⟩
                next hru => exact Or.inl rfl

/-- Replacing a user record preserves the ledger invariant. -/
theorem ledgerInv_users_mput (s : CanisterState) (a : Principal) (u : User)
    (hL : LedgerInv s) : LedgerInv { s with users := mput s.users a u } := by
  obtain ⟨hCtr, hIdx, hWK, hWU, hRU, hAm⟩ := hL
  exact ⟨hCtr, hIdx, hWK,
    fun b w hw => mget_mput_isSome _ _ _ _ (hWU b w hw),
    fun k tx p hk href => mget_mput_isSome _ _ _ _ (hRU k tx p hk href), hAm⟩

/-- Writing a wallet record (stored under its own address, for an identity
that has a user record) preserves the ledger invariant. -/
theorem ledgerInv_wallets_mput (s : CanisterState) (a : Principal) (w : Wallet)
    (hL : LedgerInv s) (haddr : w.address = a)
    (hus : (mget s.users a).isSome = true) :
    LedgerInv { s with wallets := mput s.wallets a w } := by
  obtain ⟨hCtr, hIdx, hWK, hWU, hRU, hAm⟩ := hL
  refine ⟨hCtr, hIdx, ?_, ?_, hRU, hAm⟩
  · intro b w2 hw2
    by_cases hab : a = b
    · subst hab
      rw [mget_mput_self] at hw2
      injection hw2 with hw2
      subst hw2
      exact haddr
    · rw [mget_mput_ne _ _ _ _ hab] at hw2
      exact hWK b w2 hw2
  · intro b w2 hw2
    by_cases hab : a = b
    · subst hab; exact hus
    · rw [mget_mput_ne _ _ _ _ hab] at hw2
      exact hWU b w2 hw2

/-- `generateWallet` preserves the ledger invariant. -/
theorem ledgerInv_genWallet (c : CryptoModel) (now : Int) (phone pin : String)
    (s : CanisterState) (hL : LedgerInv s) :
    LedgerInv (generateWallet c now phone pin s).2 := by
  rcases genWallet_cases c now phone pin s with hc | ⟨hnone, hc⟩
  · rw [hc]; exact hL
  · rw [hc]
    obtain ⟨hCtr, hIdx, hWK, hWU, hRU, hAm⟩ := hL
    refine ⟨hCtr, ?_, ?_, ?_, ?_, ?_⟩
    · intro p l hl
      by_cases hap : deriveWalletAddress c phone pin = p
      · subst hap
        rw [mget_mput_self] at hl
        injection hl with hl
        subst hl
        exact ⟨fun j hj => absurd hj (List.not_mem_nil j), by simp [maxTransactionsPerUser]⟩
      · rw [mget_mput_ne _ _ _ _ hap] at hl
        exact hIdx p l hl
    · intro b w hw
      by_cases hab : deriveWalletAddress c phone pin = b
      · subst hab
        rw [mget_mput_self] at hw
        injection hw with hw
        subst hw
        rfl
      · rw [mget_mput_ne _ _ _ _ hab] at hw
        exact hWK b w hw
    · intro b w hw
      by_cases hab : deriveWalletAddress c phone pin = b
      · subst hab
        rw [mget_mput_self]
        rfl
      · rw [mget_mput_ne _ _ _ _ hab] at hw
        rw [mget_mput_ne _ _ _ _ hab]
        exact hWU b w hw
    · intro k tx p hk href
      exact mget_mput_isSome _ _ _ _ (hRU k tx p hk href)
    · intro k tx p hk href
      by_cases hap : deriveWalletAddress c phone pin = p
      · subst hap
        have := hRU k tx _ hk href
        rw [hnone] at this
        simp at this
      · obtain ⟨l, hl, hprop⟩ := hAm k tx p hk href
        exact ⟨l, by rw [mget_mput_ne _ _ _ _ hap]; exact hl, hprop⟩

/-- `depositStablecoin` preserves the ledger invariant. -/
theorem ledgerInv_deposit (c : CryptoModel) (now : Int) (phone pin : String)
    (amount : Nat) (sig : Option String) (s : CanisterState) (hL : LedgerInv s) :
    LedgerInv (depositStablecoin c now phone pin amount sig s).2 := by
  rcases deposit_cases c now phone pin amount sig s with hc | hc |
    ⟨user, wallet, s1, s3, hres, hs3, hc⟩
  · rw [hc]; exact hL
  · rw [hc]; exact ledgerInv_auth c now phone pin s hL
  · rw [hc]
    have hL1 : LedgerInv s1 := by
      have hh := ledgerInv_auth c now phone pin s hL
      rw [hres] at hh
      exact hh
    obtain ⟨hwget, huget, hs1eq⟩ := authenticateUser_ok_facts c now phone pin s hres
    have haddr : wallet.address = deriveWalletAddress c phone pin :=
      hL.2.2.1 _ wallet hwget
    have husome : (mget s1.users wallet.address).isSome = true := by
      rw [haddr, huget]; rfl
    have hL2 : LedgerInv { s1 with wallets := mput s1.wallets wallet.address (updateWalletStablecoinBalance now wallet (wallet.stablecoinBalance + amount) true) } :=
      ledgerInv_wallets_mput s1 wallet.address _ hL1 rfl husome
    have hL3 : LedgerInv s3 := by
      rw [hs3]
      refine ledgerInv_cst now TransactionType.stablecoinDeposit amount none
        (some wallet.address) "STABLECOIN" sig _ hL2 ?_ ?_ ?_
      · intro x hx; cases hx
      · intro x hx
        injection hx with hx
        subst hx
        exact husome
      · intro x y hx; cases hx
    exact ledgerInv_users_mput s3 user.address (incrementUserTransactionCount user) hL3

/-- `withdrawStablecoin` preserves the ledger invariant. -/
theorem ledgerInv_withdraw (c : CryptoModel) (now : Int) (phone pin : String)
    (amount : Nat) (sig : Option String) (s : CanisterState) (hL : LedgerInv s) :
    LedgerInv (withdrawStablecoin c now phone pin amount sig s).2 := by
  rcases withdraw_cases c now phone pin amount sig s with hc | hc |
    ⟨user, wallet, s1, s3, hres, hs3, hc⟩
  · rw [hc]; exact hL
  · rw [hc]; exact ledgerInv_auth c now phone pin s hL
  · rw [hc]
    have hL1 : LedgerInv s1 := by
      have hh := ledgerInv_auth c now phone pin s hL
      rw [hres] at hh
      exact hh
    obtain ⟨hwget, huget, hs1eq⟩ := authenticateUser_ok_facts c now phone pin s hres
    have haddr : wallet.address = deriveWalletAddress c phone pin :=
      hL.2.2.1 _ wallet hwget
    have husome : (mget s1.users wallet.address).isSome = true := by
      rw [haddr, huget]; rfl
    have hL2 : LedgerInv { s1 with wallets := mput s1.wallets wallet.address (updateWalletStablecoinBalance now wallet (wallet.stablecoinBalance - amount) false) } :=
      ledgerInv_wallets_mput s1 wallet.address _ hL1 rfl husome
    have hL3 : LedgerInv s3 := by
      rw [hs3]
      refine ledgerInv_cst now TransactionType.stablecoinWithdrawal amount
        (some wallet.address) none "STABLECOIN" sig _ hL2 ?_ ?_ ?_
      · intro x hx
        injection hx with hx
        subst hx
        exact husome
      · intro x hx; cases hx
      · intro x y hx hy; cases hy
    exact ledgerInv_users_mput s3 user.address (incrementUserTransactionCount user) hL3

/-- `transferStablecoin` preserves the ledger invariant. -/
theorem ledgerInv_transfer (c : CryptoModel) (now : Int) (phone pin rphone : String)
    (amount : Nat) (sig : Option String) (s : CanisterState) (hL : LedgerInv s) :
    LedgerInv (transferStablecoin c now phone pin rphone amount sig s).2 := by
  rcases transfer_cases c now phone pin rphone amount sig s with hc | hc |
    ⟨user, wallet, s1, recipW, s3, hres, hself, hrw, hs3, hfin⟩
  · rw [hc]; exact hL
  · rw [hc]; exact ledgerInv_auth c now phone pin s hL
  · have hL1 : LedgerInv s1 := by
      have hh := ledgerInv_auth c now phone pin s hL
      rw [hres] at hh
      exact hh
    obtain ⟨hwget, huget, hs1eq⟩ := authenticateUser_ok_facts c now phone pin s hres
    have haddr : wallet.address = deriveWalletAddress c phone pin :=
      hL.2.2.1 _ wallet hwget
    have husome : (mget s1.users wallet.address).isSome = true := by
      rw [haddr, huget]; rfl
    have hraddr : recipW.address = deriveWalletAddress c rphone "0000" :=
      hL1.2.2.1 _ recipW hrw
    have hrsome : (mget s1.users (deriveWalletAddress c rphone "0000")).isSome = true :=
      hL1.2.2.2.1 _ recipW hrw
    have hL2a : LedgerInv { s1 with wallets := mput s1.wallets wallet.address (updateWalletStablecoinBalance now wallet (wallet.stablecoinBalance - amount) false) } :=
      ledgerInv_wallets_mput s1 wallet.address _ hL1 rfl husome
    have hL2 : LedgerInv { s1 with wallets := mput (mput s1.wallets wallet.address (updateWalletStablecoinBalance now wallet (wallet.stablecoinBalance - amount) false)) (deriveWalletAddress c rphone "0000") (updateWalletStablecoinBalance now recipW (recipW.stablecoinBalance + amount) true) } :=
      ledgerInv_wallets_mput _ (deriveWalletAddress c rphone "0000") _ hL2a hraddr hrsome
    have hL3 : LedgerInv s3 := by
      rw [hs3]
      refine ledgerInv_cst now TransactionType.stablecoinTransfer amount
        (some wallet.address) (some (deriveWalletAddress c rphone "0000"))
        "STABLECOIN" sig _ hL2 ?_ ?_ ?_
      · intro x hx
        injection hx with hx
        subst hx
        exact husome
      · intro x hx
        injection hx with hx
        subst hx
        exact hrsome
      · intro x y hx hy
        injection hx with hx
        injection hy with hy
        subst hx
        subst hy
        exact hself
    rcases hfin with hc | ⟨ru, hru, hc⟩
    · rw [hc]
      exact ledgerInv_users_mput s3 user.address (incrementUserTransactionCount user) hL3
    · rw [hc]
      have hL4 := ledgerInv_users_mput s3 user.address
        (incrementUserTransactionCount user) hL3
      exact ledgerInv_users_mput _ (deriveWalletAddress c rphone "0000")
        (incrementUserTransactionCount ru) hL4

/-- Every reachable state satisfies the combined ledger invariant. -/
theorem reachable_ledgerInv (c : CryptoModel) (s : CanisterState)
    (h : Reachable c s) : LedgerInv s := by
  induction h with
  | init =>
      refine ⟨?_, ?_, ?_, ?_, ?_, ?_⟩
      · intro k tx hk; simp [initState, mget] at hk
      · intro p l hl; simp [initState, mget] at hl
      · intro a w hw; simp [initState, mget] at hw
      · intro a w hw; simp [initState, mget] at hw
      · intro k tx p hk href; simp [initState, mget] at hk
      · intro k tx p hk href; simp [initState, mget] at hk
  | step hr op ih =>
      cases op with
      | genWallet now phone pin => exact ledgerInv_genWallet c now phone pin _ ih
      | deposit now phone pin amount sig =>
          exact ledgerInv_deposit c now phone pin amount sig _ ih
      | withdraw now phone pin amount sig =>
          exact ledgerInv_withdraw c now phone pin amount sig _ ih
      | transfer now phone pin rphone amount sig =>
          exact ledgerInv_transfer c now phone pin rphone amount sig _ ih

/-- Every mutating call either leaves the transaction store untouched or
extends it with one record keyed by the incremented counter. -/
theorem applyOp_tx_cases (c : CryptoModel) (s : CanisterState) (op : Op) :
    ((applyOp c s op).transactions = s.transactions ∧
      (applyOp c s op).transactionCounter = s.transactionCounter) ∨
    (∃ tx, (applyOp c s op).transactions =
        mput s.transactions (s.transactionCounter + 1) tx ∧
      (applyOp c s op).transactionCounter = s.transactionCounter + 1) := by
  cases op with
  | genWallet now phone pin =>
      left
      dsimp only [applyOp]
      rcases genWallet_cases c now phone pin s with hc | ⟨hnone, hc⟩ <;>
        (rw [hc]; exact ⟨rfl, rfl⟩)
  | deposit now phone pin amount sig =>
      have heff := authenticateUser_effects c now phone pin s
      dsimp only [applyOp]
      rcases deposit_cases c now phone pin amount sig s with hc | hc |
        ⟨user, wallet, s1, s3, hres, hs3, hc⟩
      · left
        rw [hc]; exact ⟨rfl, rfl⟩
      · left
        rw [hc]; exact ⟨heff.2.1, heff.2.2.2⟩
      · right
        rw [hres] at heff
        have hs3tx : s3.transactions =
            mput s.transactions (s.transactionCounter + 1)
              { id := s.transactionCounter + 1
                txType := TransactionType.stablecoinDeposit, amount := amount
                timestamp := now, status := TransactionStatus.completed
                fromAddress := none, toAddress := some wallet.address
                tokenType := "STABLECOIN", signature := sig, blockIndex := none } := by
          rw [hs3, cst_transactions]
          dsimp only
          rw [heff.2.1, heff.2.2.2]
        have hs3ct : s3.transactionCounter = s.transactionCounter + 1 := by
          rw [hs3, cst_counter]
          dsimp only
          rw [heff.2.2.2]
        rw [hc]
        exact ⟨_, hs3tx, hs3ct⟩
  | withdraw now phone pin amount sig =>
      have heff := authenticateUser_effects c now phone pin s
      dsimp only [applyOp]
      rcases withdraw_cases c now phone pin amount sig s with hc | hc |
        ⟨user, wallet, s1, s3, hres, hs3, hc⟩
      · left
        rw [hc]; exact ⟨rfl, rfl⟩
      · left
        rw [hc]; exact ⟨heff.2.1, heff.2.2.2⟩
      · right
        rw [hres] at heff
        have hs3tx : s3.transactions =
            mput s.transactions (s.transactionCounter + 1)
              { id := s.transactionCounter + 1
                txType := TransactionType.stablecoinWithdrawal, amount := amount
                timestamp := now, status := TransactionStatus.completed
                fromAddress := some wallet.address, toAddress := none
                tokenType := "STABLECOIN", signature := sig, blockIndex := none } := by
          rw [hs3, cst_transactions]
          dsimp only
          rw [heff.2.1, heff.2.2.2]
        have hs3ct : s3.transactionCounter = s.transactionCounter + 1 := by
          rw [hs3, cst_counter]
          dsimp only
          rw [heff.2.2.2]
        rw [hc]
        exact ⟨_, hs3tx, hs3ct⟩
  | transfer now phone pin rphone amount sig =>
      have heff := authenticateUser_effects c now phone pin s
      dsimp only [applyOp]
      rcases transfer_cases c now phone pin rphone amount sig s with hc | hc |
        ⟨user, wallet, s1, recipW, s3, hres, hself, hrw, hs3, hfin⟩
      · left
        rw [hc]; exact ⟨rfl, rfl⟩
      · left
        rw [hc]; exact ⟨heff.2.1, heff.2.2.2⟩
      · right
        rw [hres] at heff
        have hs3tx : s3.transactions =
            mput s.transactions (s.transactionCounter + 1)
              { id := s.transactionCounter + 1
                txType := TransactionType.stablecoinTransfer, amount := amount
                timestamp := now, status := TransactionStatus.completed
                fromAddress := some wallet.address
                toAddress := some (deriveWalletAddress c rphone "0000")
                tokenType := "STABLECOIN", signature := sig, blockIndex := none } := by
          rw [hs3, cst_transactions]
          dsimp only
          rw [heff.2.1, heff.2.2.2]
        have hs3ct : s3.transactionCounter = s.transactionCounter + 1 := by
          rw [hs3, cst_counter]
          dsimp only
          rw [heff.2.2.2]
        rcases hfin with hc | ⟨ru, hru, hc⟩ <;>
          (rw [hc]; exact ⟨_, hs3tx, hs3ct⟩)

/-- C8: the ledger is append-only with a monotonic key — no mutating call
ever rewrites or deletes a stored transaction record, and any transaction
a call creates is stored under an id strictly greater than every
previously assigned id. -/
theorem c8_ledger_append_only (c : CryptoModel) (s : CanisterState) (op : Op)
    (h : Reachable c s) :
    TxPreserved s (applyOp c s op) ∧ FreshIdsGreater s (applyOp c s op) := by
  have hCtr : CtrInv s := (reachable_ledgerInv c s h).1
  rcases applyOp_tx_cases c s op with ⟨ht, hct⟩ | ⟨tx, ht, hct⟩
  · constructor
    · intro k tx0 hk
      rw [ht]
      exact hk
    · intro k tx0 hnone hsome
      rw [ht, hnone] at hsome
      cases hsome
  · constructor
    · intro k tx0 hk
      rw [ht]
      have hkne : s.transactionCounter + 1 ≠ k := by
        have := hCtr k tx0 hk
        omega
      rw [mget_mput_ne _ _ _ _ hkne]
      exact hk
    · intro k tx0 hnone hsome j tx2 hj
      rw [ht] at hsome
      by_cases hkc : k = s.transactionCounter + 1
      · subst hkc
        have := hCtr j tx2 hj
        omega
      · rw [mget_mput_ne _ _ _ _ (fun hh => hkc hh.symm), hnone] at hsome
        cases hsome

/-- C8 witness: one deposit applied to the freshly registered concrete
state preserves the (empty) prior ledger and allocates a greater id. -/
theorem c8_ledger_append_only_witness :
    TxPreserved sReg (applyOp cW sReg (Op.deposit 0 ph1 pinW 1 none)) ∧
    FreshIdsGreater sReg (applyOp cW sReg (Op.deposit 0 ph1 pinW 1 none)) :=
  c8_ledger_append_only cW sReg (Op.deposit 0 ph1 pinW 1 none)
    (Reachable.step Reachable.init (Op.genWallet 0 ph1 pinW))

/-- C9 (amended): in every reachable state, every stored transaction's id
appears in the by-account index of each identity it references at most
once — and exactly once unless that identity's index has reached the
`maxTransactionsPerUser` cap, in which case the id may have been evicted
(the index keeps only the most recent entries). -/
theorem c9_amended_index_cap (c : CryptoModel) (s : CanisterState)
    (h : Reachable c s) : TxIndexAmended s :=
  (reachable_ledgerInv c s h).2.2.2.2.2

/-- C9 amended witness: the cap-aware index invariant holds in the
concrete funded two-account state. -/
theorem c9_amended_index_cap_witness : TxIndexAmended sFunded :=
  c9_amended_index_cap cW sFunded
    (Reachable.step (Reachable.step (Reachable.step Reachable.init
      (Op.genWallet 0 ph1 pinW)) (Op.genWallet 0 ph2 "0000"))
      (Op.deposit 0 ph1 pinW 50 none))

/-- C1: a successful transfer of the sender's full balance `A` to a
registered recipient with balance 0 leaves the sender at 0 and the
recipient at `A`, preserves the sum of all stablecoin balances, stores one
transaction carrying the amount, asset and both identities, and makes its
id visible in both the sender's and the recipient's by-account history. -/
theorem c1_transfer_conservation (c : CryptoModel) (now : Int)
    (phone pin rphone : String) (sig : Option String) (A : Nat)
    (s s1 : CanisterState) (senderUser : User) (senderW recipW : Wallet)
    (hval : isValidPhoneNumber rphone = true)
    (hA : ¬ A = 0)
    (h : authenticateUser c now phone pin s = (Res.ok (senderUser, senderW), s1))
    (hbalS : senderW.stablecoinBalance = A)
    (hne : ¬ senderW.address = deriveWalletAddress c rphone "0000")
    (hsw : mget s1.wallets senderW.address = some senderW)
    (hrw : mget s1.wallets (deriveWalletAddress c rphone "0000") = some recipW)
    (hbalR : recipW.stablecoinBalance = 0) :
    (transferStablecoin c now phone pin rphone A sig s).1 = Res.ok () ∧
    (mget (transferStablecoin c now phone pin rphone A sig s).2.wallets
      senderW.address).map Wallet.stablecoinBalance = some 0 ∧
    (mget (transferStablecoin c now phone pin rphone A sig s).2.wallets
      (deriveWalletAddress c rphone "0000")).map Wallet.stablecoinBalance = some A ∧
    sumStable (transferStablecoin c now phone pin rphone A sig s).2.wallets =
      sumStable s.wallets ∧
    (mget (transferStablecoin c now phone pin rphone A sig s).2.transactions
      (s.transactionCounter + 1)).map
        (fun tx => (tx.amount, tx.tokenType, tx.fromAddress, tx.toAddress)) =
      some (A, "STABLECOIN", some senderW.address,
        some (deriveWalletAddress c rphone "0000")) ∧
    (∃ l, mget (transferStablecoin c now phone pin rphone A sig s).2.userTransactions
      senderW.address = some l ∧ (s.transactionCounter + 1) ∈ l) ∧
    (∃ l, mget (transferStablecoin c now phone pin rphone A sig s).2.userTransactions
      (deriveWalletAddress c rphone "0000") = some l ∧ (s.transactionCounter + 1) ∈ l) := by
  have hblt : ¬ senderW.stablecoinBalance < A := by omega
  have heff := authenticateUser_effects c now phone pin s
  rw [h] at heff
  have hs1w : s1.wallets = s.wallets := heff.1
  have hs1c : s1.transactionCounter = s.transactionCounter := heff.2.2.2
  have hnrs : deriveWalletAddress c rphone "0000" ≠ senderW.address :=
    fun hh => hne hh.symm
  unfold transferStablecoin
  rw [h]
  dsimp only
  simp only [hval, hA, hblt, hne, hrw, Bool.not_true, Bool.false_eq_true, if_false,
    ite_false, decide_eq_true_eq, if_neg, not_false_iff]
  refine ⟨?_, ?_, ?_, ?_, ?_, ?_, ?_⟩
  · trivial
  · split <;>
      (dsimp only
       rw [cst_wallets]
       rw [mget_mput_ne _ _ _ _ hnrs, mget_mput_self]
       simp [updateWalletStablecoinBalance, hbalS])
  · split <;>
      (dsimp only
       rw [cst_wallets]
       rw [mget_mput_self]
       simp [updateWalletStablecoinBalance, hbalR])
  · split <;>
      (dsimp only
       rw [cst_wallets]
       dsimp only
       rw [← hs1w]
       have e1 := sumStable_mput s1.wallets senderW.address
         (updateWalletStablecoinBalance now senderW (senderW.stablecoinBalance - A) false)
         senderW hsw
       have e2 := sumStable_mput
         (mput s1.wallets senderW.address
           (updateWalletStablecoinBalance now senderW (senderW.stablecoinBalance - A) false))
         (deriveWalletAddress c rphone "0000")
         (updateWalletStablecoinBalance now recipW (recipW.stablecoinBalance + A) true)
         recipW (by rw [mget_mput_ne _ _ _ _ hne]; exact hrw)
       have hub1 : (updateWalletStablecoinBalance now senderW
           (senderW.stablecoinBalance - A) false).stablecoinBalance = 0 := by
         simp [updateWalletStablecoinBalance, hbalS]
       have hub2 : (updateWalletStablecoinBalance now recipW
           (recipW.stablecoinBalance + A) true).stablecoinBalance = A := by
         simp [updateWalletStablecoinBalance, hbalR]
       omega)
  · split <;>
      (dsimp only
       rw [cst_transactions]
       dsimp only
       rw [hs1c]
       rw [mget_mput_self]
       rfl)
  · split <;>
      (dsimp only
       rw [← hs1c]
       exact cst_index_mem_from now TransactionType.stablecoinTransfer A
         senderW.address (deriveWalletAddress c rphone "0000") "STABLECOIN" sig _ hnrs)
  · split <;>
      (dsimp only
       rw [← hs1c]
       exact cst_index_mem_to now TransactionType.stablecoinTransfer A
         (some senderW.address) (deriveWalletAddress c rphone "0000") "STABLECOIN" sig _)

/-- C1 witness: in the concrete two-account state, transferring the full
balance 50 from the primary to the recipient account succeeds, moves the
balances from (50, 0) to (0, 50), preserves the total, stores the
transaction record, and links transaction id 2 into both histories. -/
theorem c1_transfer_conservation_witness :
    (transferStablecoin cW 1 ph1 pinW ph2 50 none sFunded).1 = Res.ok () ∧
    (mget (transferStablecoin cW 1 ph1 pinW ph2 50 none sFunded).2.wallets aW).map
      Wallet.stablecoinBalance = some 0 ∧
    (mget (transferStablecoin cW 1 ph1 pinW ph2 50 none sFunded).2.wallets bW).map
      Wallet.stablecoinBalance = some 50 ∧
    sumStable (transferStablecoin cW 1 ph1 pinW ph2 50 none sFunded).2.wallets =
      sumStable sFunded.wallets ∧
    (mget (transferStablecoin cW 1 ph1 pinW ph2 50 none sFunded).2.transactions 2).map
      (fun tx => (tx.amount, tx.tokenType, tx.fromAddress, tx.toAddress)) =
      some (50, "STABLECOIN", some aW, some bW) ∧
    (∃ l, mget (transferStablecoin cW 1 ph1 pinW ph2 50 none sFunded).2.userTransactions
      aW = some l ∧ 2 ∈ l) ∧
    (∃ l, mget (transferStablecoin cW 1 ph1 pinW ph2 50 none sFunded).2.userTransactions
      bW = some l ∧ 2 ∈ l) := by
  have happ := c1_transfer_conservation cW 1 ph1 pinW ph2 none 50 sFunded _ _ _ _
    (by decide) (by decide) rfl (by decide) (by decide) rfl rfl (by decide)
  exact ⟨happ.1, happ.2.1, happ.2.2.1, happ.2.2.2.1, happ.2.2.2.2.1,
    happ.2.2.2.2.2.1, happ.2.2.2.2.2.2⟩

theorem insertCmp_length (cmp : Transaction → Transaction → Ordering) (a : Transaction)
    (l : List Transaction) : (insertCmp cmp a l).length = l.length + 1 := by
  induction l with
  | nil => rfl
  | cons b t ih =>
      unfold insertCmp
      split <;> simp [ih]

theorem sortCmp_length (cmp : Transaction → Transaction → Ordering) (l : List Transaction) :
    (sortCmp cmp l).length = l.length := by
  induction l with
  | nil => rfl
  | cons a t ih => simp [sortCmp, insertCmp_length, ih]

/-- C6: for an authenticated account whose by-account index resolves to
105 transaction records, requesting the second page (page index 1) with
page size 50 yields exactly 50 items with `totalCount = 105` and
`totalPages = 3`, and requesting any page at or beyond index 3 (e.g. page
10) yields an empty item list with the same totals — not an error. -/
theorem c6_pagination (c : CryptoModel) (now : Int) (phone pin : String)
    (s s1 : CanisterState) (uw : User × Wallet) (txIds : List Nat) (sb so : String)
    (h : authenticateUser c now phone pin s = (Res.ok uw, s1))
    (hidx : mget s.userTransactions uw.2.address = some txIds)
    (hlen : (txIds.filterMap (fun txId => mget s.transactions txId)).length = 105) :
    (getTransactionHistory c now phone pin
        (some { page := 1, pageSize := 50, sortBy := sb, sortOrder := so }) s).map
      (Res.rmap (fun r => (r.data.length, r.totalCount, r.totalPages))) =
      some (Res.ok (50, 105, 3)) ∧
    (∀ p, 3 ≤ p →
      (getTransactionHistory c now phone pin
          (some { page := p, pageSize := 50, sortBy := sb, sortOrder := so }) s).map
        (Res.rmap (fun r => (r.data, r.totalCount, r.totalPages))) =
        some (Res.ok ([], 105, 3))) := by
  obtain ⟨u, w⟩ := uw
  have h1 : (authenticateUser c now phone pin s).1 = Res.ok (u, w) := by rw [h]
  dsimp only at hidx
  constructor
  · unfold getTransactionHistory
    rw [h1]
    dsimp only
    rw [hidx]
    dsimp only
    simp [hlen, natSubG, natDivG, List.length_take, List.length_drop, sortCmp_length,
      Res.rmap]
  · intro p hp
    have hge : 105 ≤ p * 50 := by omega
    unfold getTransactionHistory
    rw [h1]
    dsimp only
    rw [hidx]
    dsimp only
    simp [hlen, natSubG, natDivG, hge, Res.rmap]

set_option maxRecDepth 100000 in
/-- C6 witness: the concrete account with 105 stored unit deposits —
page index 1 returns 50 of them with totals (105, 3); page index 10
returns an empty list with the same totals. -/
theorem c6_pagination_witness :
    (getTransactionHistory cW 0 ph1 pinW (some (pagePar 1)) (stateAfter 105)).map
      (Res.rmap (fun r => (r.data.length, r.totalCount, r.totalPages))) =
      some (Res.ok (50, 105, 3)) ∧
    (getTransactionHistory cW 0 ph1 pinW (some (pagePar 10)) (stateAfter 105)).map
      (Res.rmap (fun r => (r.data, r.totalCount, r.totalPages))) =
      some (Res.ok ([], 105, 3)) := by
  have happ := c6_pagination cW 0 ph1 pinW (stateAfter 105) _ _ _ "timestamp" "desc"
    rfl rfl (by decide)
  exact ⟨happ.1, happ.2 10 (by omega)⟩

/-- One failed authentication attempt on an unlocked account: returns
`invalidCredentials` and bumps the failure counter. -/
theorem authFail_step (c : CryptoModel) (t : Int) (phone pinBad : String)
    (s : CanisterState) (u : User)
    (hvp : isValidPhoneNumber phone = true)
    (hvb : isValidPin pinBad = true)
    (hu : mget s.users (deriveWalletAddress c phone pinBad) = some u)
    (hlk : u.isLocked = false)
    (hmm : hashPin c phone pinBad ≠ u.pinHash) :
    authenticateUser c t phone pinBad s =
      (Res.err WalletError.invalidCredentials,
       { s with users := mput s.users (deriveWalletAddress c phone pinBad) (updateFailedAttempts t u) }) := by
  unfold authenticateUser
  simp [hvp, hvb, hu, isAccountLocked, hlk, verifyPin, hmm]

/-- An authentication attempt on a currently locked account is rejected as
`accountLocked` without touching the state (the PIN is not re-checked). -/
theorem authLocked_step (c : CryptoModel) (t : Int) (phone pin : String)
    (s : CanisterState) (u : User)
    (hvp : isValidPhoneNumber phone = true)
    (hvq : isValidPin pin = true)
    (hu : mget s.users (deriveWalletAddress c phone pin) = some u)
    (hl : isAccountLocked t u = true) :
    authenticateUser c t phone pin s = (Res.err WalletError.accountLocked, s) := by
  unfold authenticateUser
  simp [hvp, hvq, hu, hl]

/-- A correct-PIN authentication attempt on an unlocked (or expired-lock)
account succeeds. -/
theorem authSuccess_res (c : CryptoModel) (t : Int) (phone pin : String)
    (s : CanisterState) (u : User) (w : Wallet)
    (hvp : isValidPhoneNumber phone = true)
    (hvq : isValidPin pin = true)
    (hu : mget s.users (deriveWalletAddress c phone pin) = some u)
    (hl : isAccountLocked t u = false)
    (hok : hashPin c phone pin = u.pinHash)
    (hw : mget s.wallets (deriveWalletAddress c phone pin) = some w) :
    (authenticateUser c t phone pin s).1 = Res.ok (updateUserActivity t u, w) := by
  unfold authenticateUser
  simp [hvp, hvq, hu, hl, verifyPin, hok, hw]

/-- C3: starting from an unlocked account with no failed attempts, five
consecutive failed `authenticate` calls each return `invalidCredentials`
and leave the account locked with `lockoutUntil = t5 + lockoutDuration`;
while the current time is before `lockoutUntil`, a further call — even
with the correct PIN — is rejected as `accountLocked` with the state
untouched (the PIN is not re-checked); once the lockout duration has
elapsed, a correct-PIN call succeeds again. -/
theorem c3_lockout_cycle (c : CryptoModel) (phone pinGood pinBad : String)
    (t1 t2 t3 t4 t5 : Int) (s : CanisterState) (u : User) (w : Wallet)
    (hvp : isValidPhoneNumber phone = true)
    (hvg : isValidPin pinGood = true)
    (hvb : isValidPin pinBad = true)
    (hcol : deriveWalletAddress c phone pinGood = deriveWalletAddress c phone pinBad)
    (hu : mget s.users (deriveWalletAddress c phone pinBad) = some u)
    (hw : mget s.wallets (deriveWalletAddress c phone pinBad) = some w)
    (hfa : u.failedAttempts = 0)
    (hlk : u.isLocked = false)
    (hmm : hashPin c phone pinBad ≠ u.pinHash)
    (hgood : hashPin c phone pinGood = u.pinHash) :
    (authenticateUser c t1 phone pinBad s).1 = Res.err WalletError.invalidCredentials ∧
    (authenticateUser c t2 phone pinBad (failChain c phone pinBad [t1] s)).1 =
      Res.err WalletError.invalidCredentials ∧
    (authenticateUser c t3 phone pinBad (failChain c phone pinBad [t1, t2] s)).1 =
      Res.err WalletError.invalidCredentials ∧
    (authenticateUser c t4 phone pinBad (failChain c phone pinBad [t1, t2, t3] s)).1 =
      Res.err WalletError.invalidCredentials ∧
    (authenticateUser c t5 phone pinBad (failChain c phone pinBad [t1, t2, t3, t4] s)).1 =
      Res.err WalletError.invalidCredentials ∧
    (∃ u5, mget (failChain c phone pinBad [t1, t2, t3, t4, t5] s).users
        (deriveWalletAddress c phone pinBad) = some u5 ∧
      u5.isLocked = true ∧ u5.failedAttempts = 5 ∧
      u5.lockoutUntil = some (t5 + lockoutDuration)) ∧
    (∀ t6, t6 < t5 + lockoutDuration →
      authenticateUser c t6 phone pinGood (failChain c phone pinBad [t1, t2, t3, t4, t5] s) =
        (Res.err WalletError.accountLocked,
         failChain c phone pinBad [t1, t2, t3, t4, t5] s)) ∧
    (∀ t7, t5 + lockoutDuration ≤ t7 →
      ∃ uw, (authenticateUser c t7 phone pinGood
        (failChain c phone pinBad [t1, t2, t3, t4, t5] s)).1 = Res.ok uw) := by
  have hmax : maxFailedAttempts = 5 := rfl
  set a := deriveWalletAddress c phone pinBad with ha
  set u1 := updateFailedAttempts t1 u with hu1d
  set s1 : CanisterState := { s with users := mput s.users a u1 } with hs1d
  have e1 := authFail_step c t1 phone pinBad s u hvp hvb hu hlk hmm
  have hfa1 : u1.failedAttempts = 1 := by rw [hu1d]; simp [updateFailedAttempts, hfa]
  have hlk1 : u1.isLocked = false := by
    rw [hu1d]; simp [updateFailedAttempts, hfa, hmax]
  have hph1 : u1.pinHash = u.pinHash := by rw [hu1d]; rfl
  have hmg1 : mget s1.users a = some u1 := mget_mput_self s.users a u1
  set u2 := updateFailedAttempts t2 u1 with hu2d
  set s2 : CanisterState := { s1 with users := mput s1.users a u2 } with hs2d
  have e2 := authFail_step c t2 phone pinBad s1 u1 hvp hvb hmg1 hlk1
    (by rw [hph1]; exact hmm)
  have hfa2 : u2.failedAttempts = 2 := by rw [hu2d]; simp [updateFailedAttempts, hfa1]
  have hlk2 : u2.isLocked = false := by
    rw [hu2d]; simp [updateFailedAttempts, hfa1, hmax]
  have hph2 : u2.pinHash = u.pinHash := by rw [hu2d, ← hph1]; rfl
  have hmg2 : mget s2.users a = some u2 := mget_mput_self s1.users a u2
  set u3 := updateFailedAttempts t3 u2 with hu3d
  set s3 : CanisterState := { s2 with users := mput s2.users a u3 } with hs3d
  have e3 := authFail_step c t3 phone pinBad s2 u2 hvp hvb hmg2 hlk2
    (by rw [hph2]; exact hmm)
  have hfa3 : u3.failedAttempts = 3 := by rw [hu3d]; simp [updateFailedAttempts, hfa2]
  have hlk3 : u3.isLocked = false := by
    rw [hu3d]; simp [updateFailedAttempts, hfa2, hmax]
  have hph3 : u3.pinHash = u.pinHash := by rw [hu3d, ← hph2]; rfl
  have hmg3 : mget s3.users a = some u3 := mget_mput_self s2.users a u3
  set u4 := updateFailedAttempts t4 u3 with hu4d
  set s4 : CanisterState := { s3 with users := mput s3.users a u4 } with hs4d
  have e4 := authFail_step c t4 phone pinBad s3 u3 hvp hvb hmg3 hlk3
    (by rw [hph3]; exact hmm)
  have hfa4 : u4.failedAttempts = 4 := by rw [hu4d]; simp [updateFailedAttempts, hfa3]
  have hlk4 : u4.isLocked = false := by
    rw [hu4d]; simp [updateFailedAttempts, hfa3, hmax]
  have hph4 : u4.pinHash = u.pinHash := by rw [hu4d, ← hph3]; rfl
  have hmg4 : mget s4.users a = some u4 := mget_mput_self s3.users a u4
  set u5 := updateFailedAttempts t5 u4 with hu5d
  set s5 : CanisterState := { s4 with users := mput s4.users a u5 } with hs5d
  have e5 := authFail_step c t5 phone pinBad s4 u4 hvp hvb hmg4 hlk4
    (by rw [hph4]; exact hmm)
  have hfa5 : u5.failedAttempts = 5 := by rw [hu5d]; simp [updateFailedAttempts, hfa4]
  have hlk5 : u5.isLocked = true := by
    rw [hu5d]; simp [updateFailedAttempts, hfa4, hmax]
  have hph5 : u5.pinHash = u.pinHash := by rw [hu5d, ← hph4]; rfl
  have hlu5 : u5.lockoutUntil = some (t5 + lockoutDuration) := by
    rw [hu5d]; simp [updateFailedAttempts, hfa4, hmax]
  have hmg5 : mget s5.users a = some u5 := mget_mput_self s4.users a u5
  have f1 : (authenticateUser c t1 phone pinBad s).2 = s1 := by rw [e1]
  have f2 : (authenticateUser c t2 phone pinBad s1).2 = s2 := by rw [e2]
  have f3 : (authenticateUser c t3 phone pinBad s2).2 = s3 := by rw [e3]
  have f4 : (authenticateUser c t4 phone pinBad s3).2 = s4 := by rw [e4]
  have f5 : (authenticateUser c t5 phone pinBad s4).2 = s5 := by rw [e5]
  have hc1 : failChain c phone pinBad [t1] s = s1 := by
    simp only [failChain, List.foldl, f1]
  have hc2 : failChain c phone pinBad [t1, t2] s = s2 := by
    simp only [failChain, List.foldl, f1, f2]
  have hc3 : failChain c phone pinBad [t1, t2, t3] s = s3 := by
    simp only [failChain, List.foldl, f1, f2, f3]
  have hc4 : failChain c phone pinBad [t1, t2, t3, t4] s = s4 := by
    simp only [failChain, List.foldl, f1, f2, f3, f4]
  have hc5 : failChain c phone pinBad [t1, t2, t3, t4, t5] s = s5 := by
    simp only [failChain, List.foldl, f1, f2, f3, f4, f5]
  have hw5 : mget s5.wallets a = some w := hw
  refine ⟨by rw [e1], by rw [hc1, e2], by rw [hc2, e3], by rw [hc3, e4],
    by rw [hc4, e5], ⟨u5, by rw [hc5]; exact hmg5, hlk5, hfa5, hlu5⟩, ?_, ?_⟩
  · intro t6 ht6
    rw [hc5]
    have hl : isAccountLocked t6 u5 = true := by
      have hnot : ¬ t6 ≥ t5 + lockoutDuration := by omega
      simp [isAccountLocked, hlk5, hlu5, hnot]
    exact authLocked_step c t6 phone pinGood s5 u5 hvp hvg (by rw [hcol]; exact hmg5) hl
  · intro t7 ht7
    rw [hc5]
    have hl : isAccountLocked t7 u5 = false := by
      have hyes : t7 ≥ t5 + lockoutDuration := ht7
      simp [isAccountLocked, hlk5, hlu5, hyes]
    exact ⟨(updateUserActivity t7 u5, w),
      authSuccess_res c t7 phone pinGood s5 u5 w hvp hvg (by rw [hcol]; exact hmg5) hl
        (by rw [hph5]; exact hgood) (by rw [hcol]; exact hw5)⟩

/-- C3 witness: on the concrete witness account, five failed attempts at
times 10–14 lock the account until time `3600000000014`; a correct-PIN
call at time 20 is rejected as `accountLocked` without state change, and a
correct-PIN call at the unlock time succeeds. -/
theorem c3_lockout_cycle_witness :
    (authenticateUser cW 10 ph1 badPin sReg).1 = Res.err WalletError.invalidCredentials ∧
    (∃ u5, mget sLockedW.users aW = some u5 ∧
      u5.isLocked = true ∧ u5.failedAttempts = 5 ∧
      u5.lockoutUntil = some (14 + lockoutDuration)) ∧
    authenticateUser cW 20 ph1 pinW sLockedW =
      (Res.err WalletError.accountLocked, sLockedW) ∧
    (∃ uw, (authenticateUser cW (14 + lockoutDuration) ph1 pinW sLockedW).1 = Res.ok uw) := by
  have h := c3_lockout_cycle cW ph1 pinW badPin 10 11 12 13 14 sReg (userAfter 0)
    (walletAfter 0) (by decide) (by decide) (by decide) (by decide) (by decide)
    (by decide) (by decide) (by decide) (by decide) (by decide)
  exact ⟨h.1, h.2.2.2.2.2.1, h.2.2.2.2.2.2.1 20 (by decide), h.2.2.2.2.2.2.2 _ le_rfl⟩

/-- C4 counterexample: on a locked account, a failing `authenticateUser`
call — here even with the correct PIN — returns `accountLocked`, not
`invalidCredentials`, so the locked state is distinguished from a plain
mismatch in the returned error value, contrary to the claim. -/
theorem c4_counterexample_locked_error :
    (authenticateUser cW 15 ph1 pinW sLockedW).1 = Res.err WalletError.accountLocked ∧
    (Res.err WalletError.accountLocked : Res (User × Wallet)) ≠
      Res.err WalletError.invalidCredentials := by
  exact ⟨by decide, by decide⟩

/-- C4 (amended): a failing authentication returns `invalidCredentials`
when the PIN mismatches on an unlocked account, but the distinct
`accountLocked` error when the account is currently locked. -/
theorem c4_amended_error_split (c : CryptoModel) (now : Int) (phone pin : String)
    (s : CanisterState) (u : User)
    (hvp : isValidPhoneNumber phone = true)
    (hvq : isValidPin pin = true)
    (hu : mget s.users (deriveWalletAddress c phone pin) = some u) :
    (isAccountLocked now u = true →
      (authenticateUser c now phone pin s).1 = Res.err WalletError.accountLocked) ∧
    (isAccountLocked now u = false → hashPin c phone pin ≠ u.pinHash →
      (authenticateUser c now phone pin s).1 = Res.err WalletError.invalidCredentials) := by
  constructor
  · intro hl
    unfold authenticateUser
    simp [hvp, hvq, hu, hl]
  · intro hl hm
    unfold authenticateUser
    simp [hvp, hvq, hu, hl, verifyPin, hm]

/-- C4 amended witness: the locked witness account yields `accountLocked`
on a correct-PIN attempt during lockout, and a wrong-PIN attempt on the
fresh unlocked account yields `invalidCredentials`. -/
theorem c4_amended_error_split_witness :
    (authenticateUser cW 16 ph1 pinW sLockedW).1 = Res.err WalletError.accountLocked ∧
    (authenticateUser cW 16 ph1 badPin sReg).1 = Res.err WalletError.invalidCredentials := by
  constructor
  · exact (c4_amended_error_split cW 16 ph1 pinW sLockedW uLockedW
      (by decide) (by decide) (by decide)).1 (by decide)
  · exact (c4_amended_error_split cW 16 ph1 badPin sReg (userAfter 0)
      (by decide) (by decide) (by decide)).2 (by decide) (by decide)

theorem mget_range_map (f : Nat → Transaction) : ∀ (len lo j : Nat),
    mget ((List.range' lo len).map (fun k => (k, f k))) j =
      if lo ≤ j ∧ j < lo + len then some (f j) else none := by
  intro len
  induction len with
  | zero =>
      intro lo j
      rw [if_neg (by omega)]
      rfl
  | succ len ih =>
      intro lo j
      rw [List.range'_succ]
      simp only [List.map_cons, mget]
      by_cases hj : lo = j
      · subst hj
        rw [if_pos rfl, if_pos (by omega)]
      · rw [if_neg hj, ih (lo + 1) j]
        by_cases h2 : lo + 1 ≤ j ∧ j < lo + 1 + len
        · rw [if_pos h2, if_pos (by omega)]
        · rw [if_neg h2, if_neg (by omega)]

theorem range'_one_concat (n : Nat) :
    List.range' 1 (n + 1) = List.range' 1 n ++ [n + 1] := by
  rw [List.range'_concat 1 n, Nat.one_mul, Nat.add_comm 1 n]

/-- A successful authentication of the witness account against any state
holding exactly its user and wallet records. -/
theorem authClosedForm (s : CanisterState) (n : Nat)
    (hu : s.users = [(aW, userAfter n)]) (hw : s.wallets = [(aW, walletAfter n)]) :
    authenticateUser cW 0 ph1 pinW s =
      (Res.ok (userAfter n, walletAfter n), { s with users := [(aW, userAfter n)] }) := by
  unfold authenticateUser
  rw [if_neg (by decide : ¬ (!isValidPhoneNumber ph1 || !isValidPin pinW) = true)]
  dsimp only
  rw [show deriveWalletAddress cW ph1 pinW = aW from rfl]
  rw [hu, hw]
  rw [show mget [(aW, userAfter n)] aW = some (userAfter n) from by simp [mget]]
  dsimp only
  rw [show isAccountLocked 0 (userAfter n) = false from rfl]
  rw [if_neg (by simp)]
  rw [show (userAfter n).pinHash = hpW from rfl]
  rw [show verifyPin cW ph1 pinW hpW = true from by decide]
  rw [if_pos rfl]
  rw [show mget [(aW, walletAfter n)] aW = some (walletAfter n) from by simp [mget]]
  dsimp only
  rw [show updateUserActivity 0 (userAfter n) = userAfter n from rfl]
  rw [show mput [(aW, userAfter n)] aW (userAfter n) = [(aW, userAfter n)] from by
    simp [mput]]

/-- One unit deposit advances the closed-form characterization by one. -/
theorem deposit_partial_step (s : CanisterState) (n : Nat) (hP : PartialSpec n s) :
    PartialSpec (n + 1) (depositStablecoin cW 0 ph1 pinW 1 none s).2 := by
  obtain ⟨hu, hw, ht, hx, hc⟩ := hP
  have hmax : maxTransactionsPerUser = 10000 := rfl
  unfold depositStablecoin
  rw [if_neg (by decide : ¬ (1 : Nat) = 0)]
  rw [authClosedForm s n hu hw]
  dsimp only
  have haddr : (walletAfter n).address = aW := rfl
  have hwupd : updateWalletStablecoinBalance 0 (walletAfter n)
      ((walletAfter n).stablecoinBalance + 1) true = walletAfter (n + 1) := by
    simp [updateWalletStablecoinBalance, walletAfter]
  rw [haddr, hwupd, hw]
  rw [show mput [(aW, walletAfter n)] aW (walletAfter (n + 1)) = [(aW, walletAfter (n + 1))]
    from by simp [mput]]
  have hcu : incrementUserTransactionCount (userAfter n) = userAfter (n + 1) := rfl
  set S2 : CanisterState :=
    { s with users := [(aW, userAfter n)], wallets := [(aW, walletAfter (n + 1))] } with hS2
  have hS2t : S2.transactions = (List.range' 1 n).map (fun k => (k, txRec k)) := ht
  have hS2c : S2.transactionCounter = n := hc
  have hS2x : S2.userTransactions =
      [(aW, (List.range' 1 n).drop (n - maxTransactionsPerUser))] := hx
  have hfresh : mget S2.transactions (S2.transactionCounter + 1) = none := by
    rw [hS2t, hS2c, mget_range_map]
    rw [if_neg (by omega)]
  refine ⟨?_, ?_, ?_, ?_, ?_⟩
  · rw [cst_users]
    dsimp only
    rw [hcu, show (userAfter n).address = aW from rfl]
    simp [mput]
  · rw [cst_wallets]
  · rw [cst_transactions, hS2c, hS2t]
    rw [mput_fresh_append _ _ _ (by rw [← hS2t, ← hS2c]; exact hfresh)]
    rw [range'_one_concat n, List.map_append]
    rfl
  · rw [cst_uT_none_some, hS2c, hS2x]
    unfold idxUpdate
    rw [show mget [(aW, (List.range' 1 n).drop (n - maxTransactionsPerUser))] aW =
      some ((List.range' 1 n).drop (n - maxTransactionsPerUser)) from by simp [mget]]
    dsimp only
    have hlen : ((List.range' 1 n).drop (n - maxTransactionsPerUser) ++ [n + 1]).length =
        n - (n - maxTransactionsPerUser) + 1 := by
      simp [List.length_append, List.length_drop, List.length_range']
    by_cases hcap : maxTransactionsPerUser ≤ n
    · have htrim : maxTransactionsPerUser <
          ((List.range' 1 n).drop (n - maxTransactionsPerUser) ++ [n + 1]).length := by
        rw [hlen]; omega
      rw [if_pos htrim, hlen]
      have hd1 : n - (n - maxTransactionsPerUser) + 1 - maxTransactionsPerUser = 1 := by
        omega
      rw [hd1]
      have hsplit : ((List.range' 1 n).drop (n - maxTransactionsPerUser) ++ [n + 1]).drop 1 =
          (List.range' 1 n).drop (n + 1 - maxTransactionsPerUser) ++ [n + 1] := by
        rw [List.drop_append_of_le_length (by
          simp [List.length_drop, List.length_range']
          omega)]
        rw [List.drop_drop]
        rw [show n - maxTransactionsPerUser + 1 = n + 1 - maxTransactionsPerUser from by omega]
      rw [hsplit]
      rw [show (List.range' 1 n).drop (n + 1 - maxTransactionsPerUser) ++ [n + 1] =
          ((List.range' 1 n) ++ [n + 1]).drop (n + 1 - maxTransactionsPerUser) from by
        rw [List.drop_append_of_le_length (by simp [List.length_range']; omega)]]
      rw [← range'_one_concat n]
      simp [mput]
    · have htrim : ¬ maxTransactionsPerUser <
          ((List.range' 1 n).drop (n - maxTransactionsPerUser) ++ [n + 1]).length := by
        rw [hlen]; omega
      rw [if_neg htrim]
      rw [show n - maxTransactionsPerUser = 0 from by omega]
      rw [show n + 1 - maxTransactionsPerUser = 0 from by omega]
      rw [List.drop_zero, List.drop_zero]
      rw [← range'_one_concat n]
      simp [mput]
  · rw [cst_counter, hS2c]

/-- The closed form holds after every number of unit deposits. -/
theorem depositN_partialSpec : ∀ n, PartialSpec n (depositN cW ph1 pinW n sReg) := by
  intro n
  induction n with
  | zero => exact ⟨rfl, rfl, rfl, rfl, rfl⟩
  | succ n ih => exact deposit_partial_step _ n ih

/-- Every deposit-iterated witness state is reachable. -/
theorem depositN_reachable : ∀ n, Reachable cW (depositN cW ph1 pinW n sReg) := by
  intro n
  induction n with
  | zero => exact Reachable.step Reachable.init (Op.genWallet 0 ph1 pinW)
  | succ n ih => exact Reachable.step ih (Op.deposit 0 ph1 pinW 1 none)

/-- C9 counterexample: the literal invariant — every stored transaction's
id appears in the by-account index of each referenced identity exactly
once — is false: after 10001 deposits on one account, transaction 1 is
still stored and references the account, but its id has been evicted from
the account's (capped) index. -/
theorem c9_counterexample_eviction :
    ¬ (∀ (c : CryptoModel) (s : CanisterState), Reachable c s → TxIndexComplete s) := by
  intro hall
  have hP := depositN_partialSpec 10001
  have hcom := hall cW _ (depositN_reachable 10001)
  have htx : mget (depositN cW ph1 pinW 10001 sReg).transactions 1 = some (txRec 1) := by
    rw [hP.2.2.1, mget_range_map]
    rw [if_pos (by omega)]
  obtain ⟨l, hl, hcount⟩ := hcom 1 (txRec 1) aW htx (Or.inr rfl)
  rw [hP.2.2.2.1] at hl
  rw [show mget [(aW, (List.range' 1 10001).drop (10001 - maxTransactionsPerUser))] aW =
    some ((List.range' 1 10001).drop (10001 - maxTransactionsPerUser)) from by simp [mget]]
    at hl
  injection hl with hl
  subst hl
  rw [show (10001 - maxTransactionsPerUser) = 1 from by simp [maxTransactionsPerUser]]
    at hcount
  rw [show (List.range' 1 10001).drop 1 = List.range' 2 10000 from by
    rw [List.range'_succ]
    rfl] at hcount
  have h1n : (1 : Nat) ∉ List.range' 2 10000 := by
    intro hmem
    rw [List.mem_range'_1] at hmem
    omega
  rw [List.count_eq_zero.2 h1n] at hcount
  cases hcount

end ICPNomad
